import Mathlib

deriving instance DecidableEq for Except

/-!
Verification development for the split-value end-to-end voting simulator
(src/util.py, src/tablet.py, src/sbb.py, src/proof_server.py, src/verifier.py).

Embedding conventions:
  - Python ints are Int; the Python % operator on a positive modulus agrees
    with Int.emod, written % here.
  - Byte strings that only carry big-integer payloads (SVR components u, v
    and keys k1, k2, commitments) are modelled as the integers they encode:
    bytes_to_bigint and bigint_to_bytes are mutually inverse encodings and
    every use in the verified code round-trips them.
  - Randomness drawn with os.urandom or random.shuffle is passed in as
    explicit parameters (integers, lists of integers, permutation lists).
  - Fallible code (assert statements, raise, Python TypeError) returns
    Except String.
-/

namespace EVoting

/-- Model of util.val: the value of a split pair, (u + v) % M. -/
def val (u v M : Int) : Int := (u + v) % M

/-- Modelled from the spec: util.t_val is called by
ProofServer._publish_t_values and Verifier.verify_ballot_consistency but is
absent from src/util.py; spec section 4.2 defines t_val(a, b, M) =
(b - a) mod M. The byte-string arguments are modelled as the big integers
they encode. -/
def t_val (a b M : Int) : Int := (b - a) % M

/-- Model of sv_vote.PlaintextSVR; byte fields carry little-endian big
integers and are modelled as those integers. -/
structure PlaintextSVR where
  k1 : Int
  k2 : Int
  u : Int
  v : Int
deriving DecidableEq

/-- Stand-in element for positions that Python fills with None before they
are overwritten; never read in verified executions. -/
def dfltSVR : PlaintextSVR := ⟨0, 0, 0, 0⟩

/-- Model of util.get_SV with the 16 random bytes passed in as the integer
r: u = r % M and v = (x - u) % M. -/
def get_SV (x M r : Int) : Int × Int := (r % M, (x - r % M) % M)

/-- Model of util.get_SVR with its randomness passed in: the two commitment
keys k1, k2 and the split randomness r fed to get_SV. -/
def get_SVR (x M k1 k2 r : Int) : PlaintextSVR :=
  ⟨k1, k2, (get_SV x M r).1, (get_SV x M r).2⟩

/-- Model of util.get_SV_multiple with the n-1 random draws passed in as
rands; faithful to the source when rands.length = n - 1 (the source uses n
only as the loop bound for the draws and in length assertions). -/
def get_SV_multiple (x : Int) (n : Nat) (M : Int) (rands : List Int) : List Int :=
  let split := rands.map (fun r => r % M)
  split ++ [(x - split.sum) % M]

/-- Model of the Python builtin pow(a, e, M) for a nonnegative exponent. -/
def powMod (a : Int) (e : Nat) (M : Int) : Int := a ^ e % M

/-- Model of Verifier._lagrange. The assert statements become Except
errors; share_list holds the (x, y) pairs. -/
def _lagrange (share_list : List (Int × Int)) (n t : Nat) (M : Int) :
    Except String Int :=
  if ¬ (1 ≤ t ∧ t ≤ n) then .error "AssertionError: 1 <= t <= n"
  else if ¬ ((n : Int) ≤ M - 1) then .error "AssertionError: n <= M - 1"
  else if ¬ (t ≤ share_list.length) then .error "AssertionError: len of share_list >= t"
  else
    let share_list := share_list.take t
    let x := share_list.map Prod.fst
    let y := share_list.map Prod.snd
    (List.range t).foldl
      (fun acc i =>
        match acc with
        | .error e => .error e
        | .ok secret =>
          let numerator := ((List.range t).filter (fun j => j ≠ i)).foldl
            (fun nu j => nu * ((-(x.getD j 0)) % M)) 1
          let denominator := ((List.range t).filter (fun j => j ≠ i)).foldl
            (fun de j => de * ((x.getD i 0 - x.getD j 0) % M)) 1
          if denominator = 0 then .error "AssertionError: denominator != 0"
          else
            let denominator_inverse := powMod denominator (M - 2).toNat M
            if ¬ (denominator * denominator_inverse % M = 1) then
              .error "AssertionError: inverse check"
            else .ok ((secret + y.getD i 0 * numerator * denominator_inverse) % M))
      (.ok 0)

/-! Helper lemmas about Int.emod used throughout. -/

lemma emod_self_sub_one (M : Int) (hM : 2 ≤ M) : (-1 : Int) % M = M - 1 := by
  have h1 : (-1 : Int) = (M - 1) + M * (-1) := by ring
  rw [h1, Int.add_mul_emod_self_left, Int.emod_eq_of_lt (by omega) (by omega)]

lemma emod_self_sub_two (M : Int) (hM : 3 ≤ M) : (-2 : Int) % M = M - 2 := by
  have h1 : (-2 : Int) = (M - 2) + M * (-1) := by ring
  rw [h1, Int.add_mul_emod_self_left, Int.emod_eq_of_lt (by omega) (by omega)]

lemma one_emod_self (M : Int) (hM : 2 ≤ M) : (1 : Int) % M = 1 :=
  Int.emod_eq_of_lt (by omega) (by omega)

lemma powMod_neg_one (M : Int) (h3 : 3 ≤ M) (hodd : M % 2 = 1) :
    powMod (M - 1) (M - 2).toNat M = M - 1 := by
  have hoddn : Odd (M - 2).toNat := Nat.odd_iff.mpr (by omega)
  have h1 : (M - 1) ≡ -1 [ZMOD M] := by
    unfold Int.ModEq
    rw [emod_self_sub_one M (by omega), Int.emod_eq_of_lt (by omega) (by omega)]
  have hpow : (M - 1) ^ (M - 2).toNat ≡ (-1 : Int) ^ (M - 2).toNat [ZMOD M] :=
    h1.pow _
  rw [Odd.neg_one_pow hoddn] at hpow
  unfold powMod
  rw [hpow, emod_self_sub_one M (by omega)]

/-- C5: the consistency verifier builds its share list as the one-element
Python list wrapping an enumerate object (verifier.py lines 69-70) and
calls _lagrange with n = rows and t = rows - 1; with the standard rows = 3
topology the length assertion len(share_list) >= t inside _lagrange fails
before any element is inspected, so the commented-out
LagrangeRelationFailure raise (lines 74-77 execute pass) is never reached
and no LagrangeRelationFailure is ever produced. -/
theorem verifier_lagrange_share_crashes :
    _lagrange [((1 : Int), (0 : Int))] 3 2 11 =
      .error "AssertionError: len of share_list >= t" := by decide

/-- C6 counterexample: Lagrange interpolation at 0 through (1, 0), (2, 1)
over M = 5 yields 4, not the simple sum (0 + 1) % 5 = 1, refuting the
claimed equality with the simple sum at this concrete input. -/
theorem lagrange_simple_sum_counterexample :
    _lagrange [(1, 0), (2, 1)] 2 2 5 = .ok 4 ∧
      _lagrange [(1, 0), (2, 1)] 2 2 5 ≠ .ok ((0 + 1) % 5) := by decide

/-- C6 (amended): with nodes 1..rows and threshold equal to the number of
points, _lagrange at 0 equals the alternating binomial combination of the
shares, which coincides with the simple sum only for rows = 1: for one
point it returns y1 % M (equal to the simple sum), and for two points it
returns (2 * y1 - y2) % M, not (y1 + y2) % M. Stated for any odd modulus
M >= 3 in the two-point case (in particular any odd prime) and any
M >= 2 in the one-point case. -/
theorem lagrange_at_zero_small_nodes (M : Int) :
    (2 ≤ M → ∀ y1 : Int, _lagrange [(1, y1)] 1 1 M = .ok (y1 % M)) ∧
    (3 ≤ M → M % 2 = 1 → ∀ y1 y2 : Int,
      _lagrange [(1, y1), (2, y2)] 2 2 M = .ok ((2 * y1 - y2) % M)) := by
  constructor
  · intro hM y1
    unfold _lagrange
    rw [if_neg (by decide), if_neg (by push_neg; omega), if_neg (by norm_num)]
    simp only [List.take, List.map, List.range, List.range.loop, List.foldl, List.filter,
      List.getD, powMod]
    norm_num
    rw [one_emod_self M hM]
    simp
  · intro h3 hodd y1 y2
    unfold _lagrange
    rw [if_neg (by decide), if_neg (by push_neg; omega), if_neg (by norm_num)]
    simp only [List.take, List.map, List.range, List.range.loop, List.foldl, List.filter,
      List.getD, powMod]
    norm_num
    have hM2 : (2 : Int) ≤ M := by omega
    simp only [emod_self_sub_one M hM2, emod_self_sub_two M h3, one_emod_self M hM2, one_pow]
    have hp : (M - 1) ^ (M - 2).toNat % M = M - 1 := by
      have := powMod_neg_one M h3 hodd
      unfold powMod at this
      exact this
    rw [hp]
    rw [if_neg (fun hdvd => by have := Int.le_of_dvd one_pos hdvd; omega)]
    rw [if_pos (by
      rw [show (M - 1) * (M - 1) = 1 + M * (M - 2) by ring, Int.add_mul_emod_self_left,
        one_emod_self M hM2])]
    simp only []
    rw [if_neg (show ¬ (M ∣ 1) from fun hdvd => by have := Int.le_of_dvd one_pos hdvd; omega)]
    rw [if_pos (by rw [one_mul, one_emod_self M hM2])]
    congr 1
    show Int.ModEq M _ _
    have e1 : y1 * (M - 2) * (M - 1) % M ≡ y1 * (M - 2) * (M - 1) [ZMOD M] :=
      Int.emod_emod_of_dvd _ dvd_rfl
    have e2 : (M - 2 : Int) ≡ -2 [ZMOD M] := by
      show (M - 2) % M = (-2 : Int) % M
      rw [emod_self_sub_two M h3, Int.emod_eq_of_lt (by omega) (by omega)]
    have e3 : (M - 1 : Int) ≡ -1 [ZMOD M] := by
      show (M - 1) % M = (-1 : Int) % M
      rw [emod_self_sub_one M hM2, Int.emod_eq_of_lt (by omega) (by omega)]
    have final : (y1 * (M - 2) * (M - 1) % M + y2 * (M - 1) * 1) ≡
        y1 * (-2 : Int) * (-1) + y2 * (-1) * 1 [ZMOD M] :=
      (e1.trans (((Int.ModEq.refl y1).mul e2).mul e3)).add
        (((Int.ModEq.refl y2).mul e3).mul (Int.ModEq.refl 1))
    have e4 : y1 * (-2 : Int) * (-1) + y2 * (-1) * 1 = 2 * y1 - y2 := by ring
    exact e4 ▸ final

/-- Witness for lagrange_at_zero_small_nodes at M = 5, y = (1, 2). -/
theorem lagrange_at_zero_small_nodes_witness :
    ((2 : Int) ≤ 5 ∧ _lagrange [(1, 1)] 1 1 5 = .ok (1 % 5)) ∧
    ((3 : Int) ≤ 5 ∧ (5 : Int) % 2 = 1 ∧
      _lagrange [(1, 1), (2, 2)] 2 2 5 = .ok ((2 * 1 - 2) % 5)) :=
  ⟨⟨by decide, (lagrange_at_zero_small_nodes 5).1 (by decide) 1⟩,
   ⟨by decide, by decide, (lagrange_at_zero_small_nodes 5).2 (by decide) (by decide) 1 2⟩⟩

/-! Model of ProofServer.handle_vote (claim C8). -/

/-- Model of sv_vote.SVVote. The encrypted commitment payload enc is
carried as the plaintext SVR it decrypts to, since no verified code path
depends on ciphertext internals. -/
structure SVVote where
  bid : Int
  com_u : Int
  com_v : Int
  tablet_id : Int
  proof_server_row : Option Int
  enc : PlaintextSVR
deriving DecidableEq

/-- Python list indexing semantics for a list of the given length: an
index r with 0 <= r < len selects position r; a negative r with
-len <= r selects position len + r; any other index raises IndexError. -/
def pyIndex (len : Nat) (r : Int) : Option Nat :=
  if 0 ≤ r ∧ r < (len : Int) then some r.toNat
  else if -(len : Int) ≤ r ∧ r < 0 then some (r + len).toNat
  else none

/-- Model of ProofServer.handle_vote: the state is incoming_vote_rows, the
append mutation is returned as the new state, and raised exceptions
become errors. -/
def handle_vote (incoming_vote_rows : List (List SVVote)) (sv_vote : SVVote) :
    Except String (List (List SVVote)) :=
  match sv_vote.proof_server_row with
  | none => .error "Cannot handle vote without valid proof_server_row"
  | some r =>
    match pyIndex incoming_vote_rows.length r with
    | none => .error "IndexError: list index out of range"
    | some i => .ok (incoming_vote_rows.set i (incoming_vote_rows.getD i [] ++ [sv_vote]))

/-- C8 counterexample: with two rows, a vote carrying proof_server_row -1,
which is not an integer in [0, rows), is accepted without any error and
appended to row 1 (Python negative indexing), refuting the claim that
every out-of-range row raises. -/
theorem handle_vote_negative_row_counterexample :
    handle_vote [[], []] ⟨0, 0, 0, 0, some (-1), dfltSVR⟩ =
      .ok [[], [⟨0, 0, 0, 0, some (-1), dfltSVR⟩]] := by decide

/-- C8 (amended): handle_vote raises for a missing proof_server_row and
for an index outside [-rows, rows); a row r in [0, rows) appends the
message to incoming_vote_rows[r] with no error; a negative row r in
[-rows, 0) silently appends the message to incoming_vote_rows[rows + r]
with no error. -/
theorem handle_vote_semantics (st : List (List SVVote)) (v : SVVote) :
    (v.proof_server_row = none →
      handle_vote st v = .error "Cannot handle vote without valid proof_server_row") ∧
    (∀ r : Int, v.proof_server_row = some r →
      (((st.length : Int) ≤ r ∨ r < -(st.length : Int)) →
        handle_vote st v = .error "IndexError: list index out of range") ∧
      (0 ≤ r → r < (st.length : Int) →
        handle_vote st v = .ok (st.set r.toNat (st.getD r.toNat [] ++ [v]))) ∧
      (-(st.length : Int) ≤ r → r < 0 →
        handle_vote st v =
          .ok (st.set (r + st.length).toNat (st.getD (r + st.length).toNat [] ++ [v])))) := by
  refine ⟨fun hnone => ?_, fun r hr => ⟨fun hout => ?_, fun h0 hlt => ?_, fun hge hneg => ?_⟩⟩
  · unfold handle_vote
    rw [hnone]
  · unfold handle_vote pyIndex
    rw [hr]
    simp only []
    rw [if_neg (by omega), if_neg (by omega)]
  · unfold handle_vote pyIndex
    rw [hr]
    simp only []
    rw [if_pos ⟨h0, hlt⟩]
  · unfold handle_vote pyIndex
    rw [hr]
    simp only []
    rw [if_neg (by omega), if_pos ⟨hge, hneg⟩]

/-- Witness for handle_vote_semantics: a vote with row -1 into two empty
rows lands in row 1. -/
theorem handle_vote_semantics_witness :
    (-((2 : Nat) : Int) ≤ -1 ∧ (-1 : Int) < 0) ∧
    handle_vote [[], []] ⟨1, 2, 3, 4, some (-1), dfltSVR⟩ =
      .ok [[], [⟨1, 2, 3, 4, some (-1), dfltSVR⟩]] := by
  refine ⟨by decide, ?_⟩
  have h := ((handle_vote_semantics [[], []] ⟨1, 2, 3, 4, some (-1), dfltSVR⟩).2
    (-1) rfl).2.2 (by decide) (by decide)
  exact h

/-! Model of Tablet.send_vote (claims C3 and C10). -/

/-- Model of Tablet.send_vote (tablet.py lines 63-114). The randomness
(bid bytes and split draws) is passed in; sbb_commitments and ps_rows are
the SBB commitment state and proof-server incoming rows that a successful
call would extend, returned with the bid on success. The body mirrors the
source: the initial assert vote_int < self._M guards entry, the
get_SV_multiple call asserts len(split) == rows, and then for the first
row of the loop (the loop has rows >= 1 iterations) the call
self._sbb.add_ballot_svr_commitment(com_u, com_v) passes two arguments to
SBB.add_ballot_svr_commitment(self, row, com_u, com_v), which requires
three, so Python raises TypeError at that call, before any message is
sent to the proof server and before anything is appended to the SBB. An
error therefore always carries no new state: the SBB and proof-server
state are unchanged. -/
def send_vote (M : Int) (rows : Nat) (vote_int : Int) (bid : Int)
    (split_rands : List Int) (sbb_commitments : List (List (Int × Int)))
    (ps_rows : List (List SVVote)) :
    Except String (List (List (Int × Int)) × List (List SVVote) × Int) :=
  if ¬ (vote_int < M) then .error "AssertionError: vote_int < M"
  else if split_rands.length + 1 ≠ rows then .error "AssertionError: len of split == n"
  else .error "TypeError: add_ballot_svr_commitment missing 1 required positional argument"

/-- C3: on a perfectly valid vote (0 <= x < M, correctly sized randomness)
send_vote raises TypeError at the add_ballot_svr_commitment call instead
of appending the per-row commitment triples and returning
(bid, receipt_hash); no state is produced. -/
theorem send_vote_typeerror :
    send_vote 11 2 3 7 [5] [] [] =
      .error "TypeError: add_ballot_svr_commitment missing 1 required positional argument" := by
  decide

/-- C10: for any vote value x with x >= M the very first statement of
send_vote, assert vote_int < self._M, fails, so send_vote errors before
performing any effect: no per-row message reaches the proof server and
the SBB commitment and receipt state is unchanged (errors carry no
state). -/
theorem send_vote_assert_guard (M : Int) (rows : Nat) (x bid : Int)
    (split_rands : List Int) (sbb_commitments : List (List (Int × Int)))
    (ps_rows : List (List SVVote)) (h : M ≤ x) :
    send_vote M rows x bid split_rands sbb_commitments ps_rows =
      .error "AssertionError: vote_int < M" := by
  unfold send_vote
  rw [if_pos (by omega)]

/-- Witness for send_vote_assert_guard at M = 5, x = 7. -/
theorem send_vote_assert_guard_witness :
    (5 : Int) ≤ 7 ∧
    send_vote 5 3 7 0 [1, 2] [] [] = .error "AssertionError: vote_int < M" :=
  ⟨by decide, send_vote_assert_guard 5 3 7 0 [1, 2] [] [] (by decide)⟩

/-! Model of ProofServer._publish_t_values (claim C4). -/

/-- Entry of the posted t-value array with keys tu and tv. -/
structure TValue where
  tu : Int
  tv : Int
deriving DecidableEq

/-- Model of ProofServer._publish_t_values restricted to the 3-dimensional
t-value payload it computes and posts (the SBB posting is the identity on
this payload, see the SBB model): for each of the twoM lists, each row and
each vote index below the row length of initial_sv, the posted entry is
(t_val initial.u final.u M, t_val initial.v final.v M), where final ranges
over the unmixed commitment arrays (the source asserts that initial and
final rows have equal length). -/
def _publish_t_values (M : Int) (twoM : Nat)
    (unmixed_commitment_arrays : List (List (List PlaintextSVR)))
    (initial_sv : List (List PlaintextSVR)) : List (List (List TValue)) :=
  (List.range twoM).map (fun list_idx =>
    (unmixed_commitment_arrays.getD list_idx []).enum.map (fun rp =>
      let initial_svrs := initial_sv.getD rp.1 []
      (List.range initial_svrs.length).map (fun vote_idx =>
        ⟨t_val (initial_svrs.getD vote_idx dfltSVR).u (rp.2.getD vote_idx dfltSVR).u M,
         t_val (initial_svrs.getD vote_idx dfltSVR).v (rp.2.getD vote_idx dfltSVR).v M⟩)))

/-- Reading position i of a map over List.range k. -/
lemma getD_map_range {α : Type} (k : Nat) (f : Nat → α) (i : Nat) (d : α) (h : i < k) :
    ((List.range k).map f).getD i d = f i := by
  rw [List.getD_eq_getElem _ _ (by simpa using h)]
  simp

/-- Reading position i of a map over an enumerated list. -/
lemma getD_map_enum {α β : Type} (xs : List β) (f : Nat × β → α) (i : Nat) (d : α)
    (h : i < xs.length) :
    (xs.enum.map f).getD i d = f (i, xs[i]) := by
  rw [List.getD_eq_getElem _ _ (by simpa [List.enum_length] using h)]
  simp [List.getElem_enum]

/-- C4: t_val computes the additive obfuscation offset
t_val a b M = (b - a) mod M, and consequently every posted t-value entry
satisfies tu = (final.u - initial.u) mod M and
tv = (final.v - initial.v) mod M, where final is the unmixed final SVR
and initial the original SVR of that (round, row, vote). -/
theorem t_val_offset (M : Int) (twoM : Nat)
    (unmixed_commitment_arrays : List (List (List PlaintextSVR)))
    (initial_sv : List (List PlaintextSVR)) :
    (∀ a b : Int, t_val a b M = (b - a) % M) ∧
    (∀ l r v_idx : Nat, l < twoM →
      r < (unmixed_commitment_arrays.getD l []).length →
      v_idx < (initial_sv.getD r []).length →
      (((_publish_t_values M twoM unmixed_commitment_arrays initial_sv).getD l []).getD
          r []).getD v_idx ⟨0, 0⟩ =
        ⟨((((unmixed_commitment_arrays.getD l []).getD r []).getD v_idx dfltSVR).u -
            ((initial_sv.getD r []).getD v_idx dfltSVR).u) % M,
         ((((unmixed_commitment_arrays.getD l []).getD r []).getD v_idx dfltSVR).v -
            ((initial_sv.getD r []).getD v_idx dfltSVR).v) % M⟩) := by
  refine ⟨fun a b => rfl, fun l r v_idx hl hr hv => ?_⟩
  unfold _publish_t_values
  rw [getD_map_range _ _ _ _ hl, getD_map_enum _ _ _ _ hr, getD_map_range _ _ _ _ hv]
  simp only [t_val, List.getD_eq_getElem _ _ hr]

/-- Witness for t_val_offset on a one-round, one-row, one-vote state. -/
theorem t_val_offset_witness :
    ((0 : Nat) < 1 ∧ (0 : Nat) < 1 ∧ (0 : Nat) < 1) ∧
    (((_publish_t_values 5 1 [[[⟨0, 0, 3, 4⟩]]] [[⟨0, 0, 1, 2⟩]]).getD 0 []).getD 0 []).getD
        0 ⟨0, 0⟩ = ⟨((3 : Int) - 1) % 5, ((4 : Int) - 2) % 5⟩ :=
  ⟨by decide,
   (t_val_offset 5 1 [[[⟨0, 0, 3, 4⟩]]] [[⟨0, 0, 1, 2⟩]]).2 0 0 0 (by decide) (by decide)
     (by decide)⟩

/-! Model of ProofServer.publish_vote_consistency_proof (claim C9). -/

/-- Entry of the consistency proof: either the u-side dict with keys
u, k, u_init, k_init, u_fin, k_fin or the v-side dict with keys
v, k, v_init, k_init, v_fin, k_fin. -/
inductive ProofEntry where
  | uSide (u k u_init k_init u_fin k_fin : Int)
  | vSide (v k v_init k_init v_fin k_fin : Int)
deriving DecidableEq

/-- Discriminator: true exactly on u-side entries. -/
def ProofEntry.isUSide : ProofEntry → Bool
  | .uSide .. => true
  | .vSide .. => false

/-- One opened entry of the consistency proof for a vote index:
select_u_v[vote_idx] == 0 opens the u side (component, key k1, initial
and final u with keys), anything else opens the v side. -/
def consistency_entry (select_u_v : List Int) (vote_idx : Nat)
    (svr init fin : PlaintextSVR) : ProofEntry :=
  if select_u_v.getD vote_idx 0 = 0 then
    .uSide svr.u svr.k1 init.u init.k1 fin.u fin.k1
  else
    .vSide svr.v svr.k2 init.v init.k2 fin.v fin.k2

/-- Accumulation of the svrs buckets in publish_vote_consistency_proof for
one proved list index: svrs starts as num_votes empty buckets and each
(row, vote) pair of the unmixed grid appends one opened entry to the
bucket of that vote index, reading the initial SVR from initial_sv and
the final SVR from the commitment array of that list. -/
def consistency_svrs (select_u_v : List Int) (num_votes : Nat)
    (initial_sv : List (List PlaintextSVR))
    (final_commitments : List (List PlaintextSVR))
    (unmixed_rows : List (List PlaintextSVR)) : List (List ProofEntry) :=
  unmixed_rows.enum.foldl (fun svrs rp =>
    rp.2.enum.foldl (fun svrs vp =>
      svrs.set vp.1 (svrs.getD vp.1 [] ++
        [consistency_entry select_u_v vp.1 vp.2
          ((initial_sv.getD rp.1 []).getD vp.1 dfltSVR)
          ((final_commitments.getD rp.1 []).getD vp.1 dfltSVR)])) svrs)
    (List.replicate num_votes [])

/-- Model of ProofServer.publish_vote_consistency_proof: the proved list
indices are the sorted elements of the set proof_lists, and each is paired
with its svrs grid exactly as handed to sbb.post_consistency_proof. -/
def publish_vote_consistency_proof (proof_lists : Finset Nat)
    (select_u_v : List Int) (num_votes : Nat)
    (initial_sv : List (List PlaintextSVR))
    (commitment_arrays : List (List (List PlaintextSVR)))
    (unmixed_commitment_arrays : List (List (List PlaintextSVR))) :
    List (Nat × List (List ProofEntry)) :=
  (proof_lists.sort (· ≤ ·)).map (fun list_idx =>
    (list_idx, consistency_svrs select_u_v num_votes initial_sv
      (commitment_arrays.getD list_idx [])
      (unmixed_commitment_arrays.getD list_idx [])))

/-- Bucket invariant: every entry filed under vote index j has the side
selected by select_u_v[j]. -/
def bucketsOneSide (select_u_v : List Int) (svrs : List (List ProofEntry)) : Prop :=
  ∀ j : Nat, ∀ e ∈ svrs.getD j [], e.isUSide = decide (select_u_v.getD j 0 = 0)

lemma bucketsOneSide_set (select_u_v : List Int) (svrs : List (List ProofEntry))
    (h : bucketsOneSide select_u_v svrs) (k : Nat) (a b c : PlaintextSVR) :
    bucketsOneSide select_u_v
      (svrs.set k (svrs.getD k [] ++ [consistency_entry select_u_v k a b c])) := by
  intro j e he
  by_cases hk : k < svrs.length
  · by_cases hjk : j = k
    · subst hjk
      rw [List.getD_eq_getElem _ _ (by simpa using hk), List.getElem_set_self] at he
      rcases List.mem_append.mp he with h1 | h1
      · exact h j e h1
      · rcases List.mem_singleton.mp h1 with rfl
        unfold consistency_entry
        by_cases hsel : select_u_v.getD j 0 = 0
        · rw [if_pos hsel]
          exact (decide_eq_true hsel).symm
        · rw [if_neg hsel]
          exact (decide_eq_false hsel).symm
    · by_cases hj : j < svrs.length
      · rw [List.getD_eq_getElem _ _ (by simpa using hj),
          List.getElem_set_ne (fun hh => hjk hh.symm)] at he
        exact h j e (by rwa [List.getD_eq_getElem _ _ hj])
      · rw [List.getD_eq_default _ _ (by simpa using Nat.le_of_not_lt hj)] at he
        exact absurd he (List.not_mem_nil e)
  · rw [List.set_eq_of_length_le (by omega)] at he
    exact h j e he

lemma bucketsOneSide_foldl_inner (select_u_v : List Int)
    (initial_sv final_commitments : List (List PlaintextSVR)) (row : Nat)
    (l : List (Nat × PlaintextSVR)) :
    ∀ svrs, bucketsOneSide select_u_v svrs →
      bucketsOneSide select_u_v (l.foldl (fun svrs vp =>
        svrs.set vp.1 (svrs.getD vp.1 [] ++
          [consistency_entry select_u_v vp.1 vp.2
            ((initial_sv.getD row []).getD vp.1 dfltSVR)
            ((final_commitments.getD row []).getD vp.1 dfltSVR)])) svrs) := by
  induction l with
  | nil => exact fun svrs h => h
  | cons vp rest ih =>
    intro svrs h
    exact ih _ (bucketsOneSide_set select_u_v svrs h vp.1 vp.2 _ _)

lemma bucketsOneSide_consistency_svrs (select_u_v : List Int) (num_votes : Nat)
    (initial_sv final_commitments : List (List PlaintextSVR))
    (unmixed_rows : List (List PlaintextSVR)) :
    bucketsOneSide select_u_v
      (consistency_svrs select_u_v num_votes initial_sv final_commitments unmixed_rows) := by
  unfold consistency_svrs
  have hbase : bucketsOneSide select_u_v (List.replicate num_votes ([] : List ProofEntry)) := by
    intro j e he
    rcases Nat.lt_or_ge j num_votes with hj | hj
    · rw [List.getD_eq_getElem _ _ (by simpa using hj), List.getElem_replicate] at he
      exact absurd he (List.not_mem_nil e)
    · rw [List.getD_eq_default _ _ (by simpa using hj)] at he
      exact absurd he (List.not_mem_nil e)
  generalize List.replicate num_votes ([] : List ProofEntry) = start at hbase ⊢
  induction unmixed_rows.enum generalizing start with
  | nil => exact hbase
  | cons rp rest ih =>
    exact ih _ (bucketsOneSide_foldl_inner select_u_v initial_sv final_commitments rp.1
      rp.2.enum start hbase)

/-- C9: for every set of proved round indices and every select_u_v list,
the emitted consistency proof opens exactly one side per vote index,
stably across rounds and rows: if select_u_v[j] = 0 then every entry
filed under vote index j, in every proved round and every row, is a
u-side entry (components and keys u, k, u_init, k_init, u_fin, k_fin),
otherwise every such entry is a v-side entry; consequently no vote index
ever has both a u-side and a v-side entry opened. -/
theorem consistency_proof_single_side (proof_lists : Finset Nat)
    (select_u_v : List Int) (num_votes : Nat)
    (initial_sv : List (List PlaintextSVR))
    (commitment_arrays unmixed_commitment_arrays : List (List (List PlaintextSVR))) :
    ∀ p ∈ publish_vote_consistency_proof proof_lists select_u_v num_votes initial_sv
      commitment_arrays unmixed_commitment_arrays,
      ∀ j : Nat,
        (select_u_v.getD j 0 = 0 → ∀ e ∈ p.2.getD j [], e.isUSide = true) ∧
        (select_u_v.getD j 0 ≠ 0 → ∀ e ∈ p.2.getD j [], e.isUSide = false) ∧
        ¬ ∃ e1 ∈ p.2.getD j [], ∃ e2 ∈ p.2.getD j [],
          e1.isUSide = true ∧ e2.isUSide = false := by
  intro p hp j
  rcases List.mem_map.mp hp with ⟨list_idx, _hmem, rfl⟩
  have hinv := bucketsOneSide_consistency_svrs select_u_v num_votes initial_sv
    (commitment_arrays.getD list_idx []) (unmixed_commitment_arrays.getD list_idx [])
  refine ⟨fun hsel e he => ?_, fun hsel e he => ?_, fun hex => ?_⟩
  · rw [hinv j e he]
    exact decide_eq_true hsel
  · rw [hinv j e he]
    exact decide_eq_false hsel
  · obtain ⟨e1, he1, e2, he2, hu1, hu2⟩ := hex
    rw [hinv j e1 he1] at hu1
    rw [hinv j e2 he2] at hu2
    rw [hu1] at hu2
    exact absurd hu2 (by decide)

/-- Witness for consistency_proof_single_side: one proved round, one row,
two votes; vote index 1 selects the v side and every entry in its bucket
is a v-side entry. -/
theorem consistency_proof_single_side_witness :
    ([(0 : Int), 1].getD 1 0 ≠ 0) ∧
    (∀ e ∈ (consistency_svrs [0, 1] 2 [[⟨1, 2, 3, 4⟩, ⟨5, 6, 7, 8⟩]]
        ([[[⟨9, 10, 11, 12⟩, ⟨13, 14, 15, 16⟩]]].getD 0 [])
        ([[[⟨17, 18, 19, 20⟩, ⟨21, 22, 23, 24⟩]]].getD 0 [])).getD 1 [],
      e.isUSide = false) := by
  have hp : ((0 : Nat), consistency_svrs [0, 1] 2 [[⟨1, 2, 3, 4⟩, ⟨5, 6, 7, 8⟩]]
      ([[[⟨9, 10, 11, 12⟩, ⟨13, 14, 15, 16⟩]]].getD 0 [])
      ([[[⟨17, 18, 19, 20⟩, ⟨21, 22, 23, 24⟩]]].getD 0 [])) ∈
      publish_vote_consistency_proof {0} [0, 1] 2 [[⟨1, 2, 3, 4⟩, ⟨5, 6, 7, 8⟩]]
        [[[⟨9, 10, 11, 12⟩, ⟨13, 14, 15, 16⟩]]] [[[⟨17, 18, 19, 20⟩, ⟨21, 22, 23, 24⟩]]] := by
    unfold publish_vote_consistency_proof
    rw [Finset.sort_singleton]
    exact List.mem_singleton.mpr rfl
  exact ⟨by decide,
    (consistency_proof_single_side {0} [0, 1] 2 [[⟨1, 2, 3, 4⟩, ⟨5, 6, 7, 8⟩]]
      [[[⟨9, 10, 11, 12⟩, ⟨13, 14, 15, 16⟩]]] [[[⟨17, 18, 19, 20⟩, ⟨21, 22, 23, 24⟩]]]
      _ hp 1).2.1 (by decide)⟩

/-! Model of ProofServer._mix_round, mix_votes and _unmix_commitments
(claims C1 and C2). Randomness is passed in explicitly. -/

/-- Randomness of one column of a mix round: the shuffle permutation pi
produced by random.shuffle of range(num_votes), and for each vote position
the random draws handed to get_SV_multiple(0, rows, M). -/
structure ColumnRand where
  pi : List Nat
  obf_rands : List (List Int)
deriving DecidableEq

/-- Randomness of one whole mix round: one ColumnRand per column, plus per
row and vote the key pair and split draw given to get_SVR for the final
commitments. -/
structure RoundRand where
  cols : List ColumnRand
  svr_rands : List (List (Int × Int × Int))
deriving DecidableEq

/-- Decryption step of _mix_round: each row maps its incoming plaintext
SVRs to component values val(u, v, M). The commitment re-check against
com_u and com_v succeeds on every state actually produced by tablets (a
mismatch aborts mixing and produces no state). -/
def decrypt_row_values (M : Int) (initial_sv : List (List PlaintextSVR)) :
    List (List Int) :=
  initial_sv.map (fun row => row.map (fun svr => val svr.u svr.v M))

/-- Transpose performing list(zip(*obfuscation_tuples)): row r of the
result collects component r of each of the num_votes tuples; faithful for
tuples that all have length rows. -/
def obfuscation_lists (rows : Nat) (obfuscation_tuples : List (List Int)) :
    List (List Int) :=
  (List.range rows).map (fun row => obfuscation_tuples.map (fun t => t.getD row 0))

/-- One column of obfuscation and shuffling in _mix_round: the column
draws pi and the per-vote obfuscation tuples get_SV_multiple(0, rows, M);
each row adds its component of each tuple to its vote components and then
applies the shared shuffle pi. -/
def mix_column (M : Int) (rows : Nat) (c : ColumnRand)
    (row_values : List (List Int)) : List (List Int) :=
  let obfuscation_tuples := c.obf_rands.map (get_SV_multiple 0 rows M)
  let obf_lists := obfuscation_lists rows obfuscation_tuples
  (row_values.zip obf_lists).map (fun p =>
    let obfuscated_components := (p.2.zip p.1).map (fun q => val q.1 q.2 M)
    c.pi.map (fun i => obfuscated_components.getD i 0))

/-- The rows columns of obfuscation and shuffling of one round, applied in
column order. -/
def mix_round_values (M : Int) (rows : Nat) (cols : List ColumnRand)
    (row_values : List (List Int)) : List (List Int) :=
  cols.foldl (fun rv c => mix_column M rows c rv) row_values

/-- Final-column commitments of one round: each row commits to each of its
component values with a fresh SVR from get_SVR. -/
def round_commitments (M : Int) (svr_rands : List (List (Int × Int × Int)))
    (row_values : List (List Int)) : List (List PlaintextSVR) :=
  (row_values.zip svr_rands).map (fun p =>
    (p.1.zip p.2).map (fun q => get_SVR q.1 M q.2.1 q.2.2.1 q.2.2.2))

/-- One _mix_round: the pair of the permutation arrays recorded for the
round and the commitment array appended to _commitment_arrays. -/
def _mix_round (M : Int) (rows : Nat) (initial_sv : List (List PlaintextSVR))
    (rr : RoundRand) : List (List Nat) × List (List PlaintextSVR) :=
  (rr.cols.map ColumnRand.pi,
   round_commitments M rr.svr_rands
     (mix_round_values M rows rr.cols (decrypt_row_values M initial_sv)))

/-- Model of mix_votes: every round starts from the same decrypted
incoming votes (initial_sv is recorded on the first round and identical
afterwards) and runs _mix_round with its own randomness. -/
def mix_votes (M : Int) (rows : Nat) (initial_sv : List (List PlaintextSVR))
    (rounds : List RoundRand) : List (List (List Nat) × List (List PlaintextSVR)) :=
  rounds.map (_mix_round M rows initial_sv)

/-- Sum over all rows of the component value at vote position j. -/
def colSum (row_values : List (List Int)) (j : Nat) : Int :=
  (row_values.map (fun row => row.getD j 0)).sum

/-- Sum over all rows of val(u, v, M) of the SVR at vote position j. -/
def svrColSum (M : Int) (grid : List (List PlaintextSVR)) (j : Nat) : Int :=
  (grid.map (fun row => val (row.getD j dfltSVR).u (row.getD j dfltSVR).v M)).sum

/-- Composition of recorded column permutations applied to a position:
composePerms [p0, ..., pk] j = p0[p1[...pk[j]]]. -/
def composePerms (ps : List (List Nat)) (j : Nat) : Nat :=
  ps.foldr (fun pi acc => pi.getD acc 0) j

/-- Validity of a shuffle permutation as produced by random.shuffle of
range(n). -/
abbrev validPerm (n : Nat) (pi : List Nat) : Prop :=
  pi.length = n ∧ pi.Nodup ∧ ∀ x ∈ pi, x < n

/-- Validity of the randomness of one column for n votes. -/
abbrev validCol (rows n : Nat) (c : ColumnRand) : Prop :=
  validPerm n c.pi ∧ c.obf_rands.length = n ∧ ∀ r ∈ c.obf_rands, r.length = rows - 1

/-- Validity of the randomness of one round for n votes. -/
abbrev validRound (rows n : Nat) (rr : RoundRand) : Prop :=
  (∀ c ∈ rr.cols, validCol rows n c) ∧
  rr.svr_rands.length = rows ∧ ∀ l ∈ rr.svr_rands, l.length = n

/-- Model of ProofServer._reverse_permutation: back_tracked starts as a
list of Nones (modelled by a default that is provably never kept for a
valid permutation) and position permutation[i] receives values[i]. -/
def _reverse_permutation {α : Type} (permutation : List Nat) (values : List α)
    (dflt : α) : List α :=
  values.enum.foldl
    (fun back_tracked iv => back_tracked.set (permutation.getD iv.1 0) iv.2)
    (values.map (fun _ => dflt))

/-- Un-mixing of one round: the recorded permutations are replayed in
reverse order over every row (proof_server.py lines 125-129). -/
def unmix_round (perms : List (List Nat)) (rows_svrs : List (List PlaintextSVR)) :
    List (List PlaintextSVR) :=
  perms.reverse.foldl
    (fun arrs perm => arrs.map (fun row_svrs => _reverse_permutation perm row_svrs dfltSVR))
    rows_svrs

/-- The effect of un-mixing on a single row (the row loop body of
_unmix_commitments applied across the reversed permutation list). -/
def unmix_row (perms : List (List Nat)) (row : List PlaintextSVR) : List PlaintextSVR :=
  perms.reverse.foldl (fun a perm => _reverse_permutation perm a dfltSVR) row

/-- Model of ProofServer._unmix_commitments over the recorded per-round
permutation arrays and commitment arrays. -/
def _unmix_commitments (twoM : Nat) (permutation_arrays : List (List (List Nat)))
    (commitment_arrays : List (List (List PlaintextSVR))) :
    List (List (List PlaintextSVR)) :=
  (List.range twoM).map (fun list_idx =>
    unmix_round (permutation_arrays.getD list_idx []) (commitment_arrays.getD list_idx []))

/-! Arithmetic and list bridging lemmas for the mix-net proofs. -/

lemma get_SVR_val (x M k1 k2 r : Int) :
    val (get_SVR x M k1 k2 r).u (get_SVR x M k1 k2 r).v M = x % M := by
  show (r % M + (x - r % M) % M) % M = x % M
  have h : (r % M + (x - r % M) % M) ≡ (r % M + (x - r % M)) [ZMOD M] :=
    (Int.ModEq.refl (r % M)).add (Int.emod_emod_of_dvd _ dvd_rfl)
  calc (r % M + (x - r % M) % M) % M = (r % M + (x - r % M)) % M := h
    _ = x % M := by rw [show r % M + (x - r % M) = x by ring]

lemma get_SV_multiple_sum (x : Int) (n : Nat) (M : Int) (rands : List Int) :
    (get_SV_multiple x n M rands).sum % M = x % M := by
  unfold get_SV_multiple
  rw [List.sum_append, List.sum_cons, List.sum_nil, add_zero]
  have h : ((rands.map (fun r => r % M)).sum + (x - (rands.map (fun r => r % M)).sum) % M)
      ≡ ((rands.map (fun r => r % M)).sum + (x - (rands.map (fun r => r % M)).sum))
      [ZMOD M] :=
    (Int.ModEq.refl _).add (Int.emod_emod_of_dvd _ dvd_rfl)
  calc ((rands.map (fun r => r % M)).sum + (x - (rands.map (fun r => r % M)).sum) % M) % M
      = ((rands.map (fun r => r % M)).sum + (x - (rands.map (fun r => r % M)).sum)) % M := h
    _ = x % M := by rw [show (rands.map (fun r => r % M)).sum +
        (x - (rands.map (fun r => r % M)).sum) = x by ring]

lemma get_SV_multiple_length (x : Int) (n : Nat) (M : Int) (rands : List Int) :
    (get_SV_multiple x n M rands).length = rands.length + 1 := by
  simp [get_SV_multiple]

/-- A list sum of mapped values as an indexed sum over positions. -/
lemma list_map_sum_eq_range {α : Type} (l : List α) (f : α → Int) (d : α) :
    (l.map f).sum = ∑ i ∈ Finset.range l.length, f (l.getD i d) := by
  induction l with
  | nil => simp
  | cons a t ih =>
    rw [List.map_cons, List.sum_cons, List.length_cons, Finset.sum_range_succ']
    simp only [List.getD_cons_succ, List.getD_cons_zero]
    rw [ih]
    ring

/-- A list sum as an indexed sum over positions. -/
lemma list_sum_eq_range (l : List Int) (d : Int) :
    l.sum = ∑ i ∈ Finset.range l.length, l.getD i d := by
  have h := list_map_sum_eq_range l id d
  simpa using h

lemma colSum_eq_range (row_values : List (List Int)) (j : Nat) :
    colSum row_values j =
      ∑ i ∈ Finset.range row_values.length, (row_values.getD i []).getD j 0 :=
  list_map_sum_eq_range row_values (fun row => row.getD j 0) []

lemma svrColSum_eq_range (M : Int) (grid : List (List PlaintextSVR)) (j : Nat) :
    svrColSum M grid j =
      ∑ i ∈ Finset.range grid.length,
        val ((grid.getD i []).getD j dfltSVR).u ((grid.getD i []).getD j dfltSVR).v M :=
  list_map_sum_eq_range grid
    (fun row => val (row.getD j dfltSVR).u (row.getD j dfltSVR).v M) []

/-- Reading an in-bounds position of a mapped list with a chosen default
for the underlying list. -/
lemma getD_map_at {α β : Type} (f : α → β) (l : List α) (i : Nat) (d : β) (da : α)
    (h : i < l.length) : (l.map f).getD i d = f (l.getD i da) := by
  rw [List.getD_eq_getElem (l.map f) d (by simpa using h), List.getElem_map,
    List.getD_eq_getElem l da h]

/-- Reading an in-bounds position of a zipped list. -/
lemma getD_zip_at {α β : Type} (l1 : List α) (l2 : List β) (i : Nat) (d1 : α) (d2 : β)
    (h1 : i < l1.length) (h2 : i < l2.length) :
    (l1.zip l2).getD i (d1, d2) = (l1.getD i d1, l2.getD i d2) := by
  rw [List.getD_eq_getElem (l1.zip l2) (d1, d2) (by
      rw [List.length_zip]
      omega),
    List.getElem_zip, List.getD_eq_getElem l1 d1 h1, List.getD_eq_getElem l2 d2 h2]

lemma mix_column_shape (M : Int) (rows : Nat) (c : ColumnRand) (rv : List (List Int))
    (hrv : rv.length = rows) :
    (mix_column M rows c rv).length = rows ∧
    ∀ row ∈ mix_column M rows c rv, row.length = c.pi.length := by
  constructor
  · simp [mix_column, obfuscation_lists, hrv]
  · intro row hrow
    rcases List.mem_map.mp hrow with ⟨p, _, rfl⟩
    simp

lemma mix_column_getD (M : Int) (rows n : Nat) (c : ColumnRand) (rv : List (List Int))
    (hrv : rv.length = rows) (hrow : ∀ row ∈ rv, row.length = n)
    (hc : validCol rows n c) (rho j : Nat) (hrho : rho < rows) (hj : j < n) :
    ((mix_column M rows c rv).getD rho []).getD j 0 =
      val (((c.obf_rands.map (get_SV_multiple 0 rows M)).getD (c.pi.getD j 0) []).getD rho 0)
        ((rv.getD rho []).getD (c.pi.getD j 0) 0) M := by
  obtain ⟨⟨hpl, hpnd, hpb⟩, hol, holl⟩ := hc
  have hrhorv : rho < rv.length := by omega
  have hrvrho : (rv.getD rho []).length = n := by
    rw [List.getD_eq_getElem rv [] hrhorv]
    exact hrow _ (List.getElem_mem _)
  have hjl : j < c.pi.length := by omega
  have hpj : c.pi.getD j 0 < n := by
    rw [List.getD_eq_getElem c.pi 0 hjl]
    exact hpb _ (List.getElem_mem _)
  have htl : (c.obf_rands.map (get_SV_multiple 0 rows M)).length = n := by
    rw [List.length_map, hol]
  simp only [mix_column, obfuscation_lists]
  have h1 : rho < (rv.zip ((List.range rows).map (fun row =>
      (c.obf_rands.map (get_SV_multiple 0 rows M)).map (fun t => t.getD row 0)))).length := by
    rw [List.length_zip, List.length_map, List.length_range, hrv]
    omega
  rw [getD_map_at _ _ _ _ (([] : List Int), ([] : List Int)) h1]
  have h2 : rho < ((List.range rows).map (fun row =>
      (c.obf_rands.map (get_SV_multiple 0 rows M)).map (fun t => t.getD row 0))).length := by
    rw [List.length_map, List.length_range]
    omega
  rw [getD_zip_at rv _ rho [] [] hrhorv h2]
  rw [getD_map_range rows _ rho [] hrho]
  rw [getD_map_at _ c.pi j (0 : Int) (0 : Nat) hjl]
  simp only []
  have h4 : c.pi.getD j 0 < ((c.obf_rands.map (get_SV_multiple 0 rows M)).map
      (fun t => t.getD rho 0)).length := by
    rw [List.length_map, htl]
    omega
  rw [getD_map_at _ _ _ (0 : Int) ((0 : Int), (0 : Int)) (by
    rw [List.length_zip, List.length_map, htl, hrvrho]
    omega)]
  have h6 : c.pi.getD j 0 < (rv.getD rho []).length := by omega
  rw [getD_zip_at _ _ _ (0 : Int) (0 : Int) h4 h6]
  simp only []
  rw [getD_map_at _ _ _ (0 : Int) ([] : List Int) (by omega)]

lemma mix_column_colSum (M : Int) (rows n : Nat) (c : ColumnRand) (rv : List (List Int))
    (hrows : 0 < rows) (hrv : rv.length = rows) (hrow : ∀ row ∈ rv, row.length = n)
    (hc : validCol rows n c) (j : Nat) (hj : j < n) :
    colSum (mix_column M rows c rv) j % M = colSum rv (c.pi.getD j 0) % M := by
  obtain ⟨⟨hpl, hpnd, hpb⟩, hol, holl⟩ := hc
  have hpj : c.pi.getD j 0 < n := by
    rw [List.getD_eq_getElem c.pi 0 (by omega)]
    exact hpb _ (List.getElem_mem _)
  have hlen : (mix_column M rows c rv).length = rows := (mix_column_shape M rows c rv hrv).1
  rw [colSum_eq_range, colSum_eq_range, hlen, hrv]
  have hsum : (∑ i ∈ Finset.range rows, ((mix_column M rows c rv).getD i []).getD j 0) =
      ∑ i ∈ Finset.range rows,
        val (((c.obf_rands.map (get_SV_multiple 0 rows M)).getD (c.pi.getD j 0) []).getD i 0)
          ((rv.getD i []).getD (c.pi.getD j 0) 0) M :=
    Finset.sum_congr rfl (fun i hi =>
      mix_column_getD M rows n c rv hrv hrow ⟨⟨hpl, hpnd, hpb⟩, hol, holl⟩ i j
        (Finset.mem_range.mp hi) hj)
  rw [hsum]
  have hTmem : c.obf_rands.getD (c.pi.getD j 0) [] ∈ c.obf_rands := by
    rw [List.getD_eq_getElem c.obf_rands [] (by omega)]
    exact List.getElem_mem _
  have hT : (c.obf_rands.map (get_SV_multiple 0 rows M)).getD (c.pi.getD j 0) [] =
      get_SV_multiple 0 rows M (c.obf_rands.getD (c.pi.getD j 0) []) :=
    getD_map_at _ _ _ _ [] (by omega)
  rw [hT]
  have hTlen : (get_SV_multiple 0 rows M (c.obf_rands.getD (c.pi.getD j 0) [])).length =
      rows := by
    rw [get_SV_multiple_length, holl _ hTmem]
    omega
  have hTsum : (get_SV_multiple 0 rows M (c.obf_rands.getD (c.pi.getD j 0) [])).sum =
      ∑ i ∈ Finset.range rows,
        (get_SV_multiple 0 rows M (c.obf_rands.getD (c.pi.getD j 0) [])).getD i 0 := by
    rw [list_sum_eq_range _ 0, hTlen]
  simp only [val]
  rw [← Finset.sum_int_mod, Finset.sum_add_distrib, ← hTsum, Int.add_emod,
    get_SV_multiple_sum, Int.zero_emod, zero_add, Int.emod_emod_of_dvd _ dvd_rfl]

lemma composePerms_lt (n : Nat) (ps : List (List Nat))
    (hps : ∀ p ∈ ps, validPerm n p) (j : Nat) (hj : j < n) :
    composePerms ps j < n := by
  induction ps with
  | nil => exact hj
  | cons p rest ih =>
    have hm : composePerms rest j < n := ih (fun q hq => hps q (List.mem_cons_of_mem p hq))
    obtain ⟨hpl, hpnd, hpb⟩ := hps p (List.mem_cons_self p rest)
    show p.getD (composePerms rest j) 0 < n
    rw [List.getD_eq_getElem p 0 (by omega)]
    exact hpb _ (List.getElem_mem _)

lemma mix_round_values_spec (M : Int) (rows n : Nat) (cols : List ColumnRand) :
    ∀ rv : List (List Int), 0 < rows → rv.length = rows → (∀ row ∈ rv, row.length = n) →
      (∀ c ∈ cols, validCol rows n c) →
      (mix_round_values M rows cols rv).length = rows ∧
      (∀ row ∈ mix_round_values M rows cols rv, row.length = n) ∧
      (∀ j : Nat, j < n → colSum (mix_round_values M rows cols rv) j % M =
        colSum rv (composePerms (cols.map ColumnRand.pi) j) % M) := by
  induction cols with
  | nil => exact fun rv hrows hrv hrow hcols => ⟨hrv, hrow, fun j hj => rfl⟩
  | cons c cs ih =>
    intro rv hrows hrv hrow hcols
    have hc := hcols c (List.mem_cons_self c cs)
    have hcs := fun q hq => hcols q (List.mem_cons_of_mem c hq)
    have hstep : mix_round_values M rows (c :: cs) rv =
        mix_round_values M rows cs (mix_column M rows c rv) := rfl
    have hlen1 : (mix_column M rows c rv).length = rows := (mix_column_shape M rows c rv hrv).1
    have hrow1 : ∀ row ∈ mix_column M rows c rv, row.length = n := by
      intro row hrowm
      rw [(mix_column_shape M rows c rv hrv).2 row hrowm, hc.1.1]
    obtain ⟨ih1, ih2, ih3⟩ := ih (mix_column M rows c rv) hrows hlen1 hrow1 hcs
    refine ⟨hstep ▸ ih1, hstep ▸ ih2, fun j hj => ?_⟩
    have hcj : composePerms (cs.map ColumnRand.pi) j < n := by
      refine composePerms_lt n (cs.map ColumnRand.pi) ?_ j hj
      intro p hp
      rcases List.mem_map.mp hp with ⟨q, hq, rfl⟩
      exact (hcs q hq).1
    rw [hstep, ih3 j hj,
      mix_column_colSum M rows n c rv hrows hrv hrow hc _ hcj]
    rfl

lemma round_commitments_entry_val (M : Int) (rows n : Nat)
    (svr_rands : List (List (Int × Int × Int))) (rv : List (List Int))
    (hrv : rv.length = rows) (hrow : ∀ row ∈ rv, row.length = n)
    (hsr : svr_rands.length = rows) (hsrl : ∀ l ∈ svr_rands, l.length = n)
    (i j : Nat) (hi : i < rows) (hj : j < n) :
    val (((round_commitments M svr_rands rv).getD i []).getD j dfltSVR).u
      (((round_commitments M svr_rands rv).getD i []).getD j dfltSVR).v M =
      (rv.getD i []).getD j 0 % M := by
  have hrvi : (rv.getD i []).length = n := by
    rw [List.getD_eq_getElem rv [] (by omega)]
    exact hrow _ (List.getElem_mem _)
  have hsri : (svr_rands.getD i []).length = n := by
    rw [List.getD_eq_getElem svr_rands [] (by omega)]
    exact hsrl _ (List.getElem_mem _)
  unfold round_commitments
  have h1 : i < (rv.zip svr_rands).length := by
    rw [List.length_zip]
    omega
  rw [getD_map_at _ _ _ _ (([] : List Int), ([] : List (Int × Int × Int))) h1]
  rw [getD_zip_at rv svr_rands i [] [] (by omega) (by omega)]
  rw [getD_map_at _ _ _ dfltSVR ((0 : Int), ((0 : Int), (0 : Int), (0 : Int))) (by
    simp only [List.length_zip]
    simp only [hrvi, hsri]
    omega)]
  rw [getD_zip_at _ _ _ (0 : Int) ((0 : Int), (0 : Int), (0 : Int))
    (by simp only [hrvi]; omega) (by simp only [hsri]; omega)]
  exact get_SVR_val _ M _ _ _

lemma round_commitments_svrColSum (M : Int) (rows n : Nat)
    (svr_rands : List (List (Int × Int × Int))) (rv : List (List Int))
    (hrv : rv.length = rows) (hrow : ∀ row ∈ rv, row.length = n)
    (hsr : svr_rands.length = rows) (hsrl : ∀ l ∈ svr_rands, l.length = n)
    (j : Nat) (hj : j < n) :
    svrColSum M (round_commitments M svr_rands rv) j % M = colSum rv j % M := by
  have hlen : (round_commitments M svr_rands rv).length = rows := by
    simp [round_commitments, List.length_zip, hrv, hsr]
  rw [svrColSum_eq_range, colSum_eq_range, hlen, hrv]
  have hsum : (∑ i ∈ Finset.range rows,
      val (((round_commitments M svr_rands rv).getD i []).getD j dfltSVR).u
        (((round_commitments M svr_rands rv).getD i []).getD j dfltSVR).v M) =
      ∑ i ∈ Finset.range rows, (rv.getD i []).getD j 0 % M :=
    Finset.sum_congr rfl (fun i hi =>
      round_commitments_entry_val M rows n svr_rands rv hrv hrow hsr hsrl i j
        (Finset.mem_range.mp hi) hj)
  rw [hsum, ← Finset.sum_int_mod]

/-- Core invariant of one mix round: the row sum of the committed SVR
values at any position j is congruent mod M to the cast ballot at the
composed-permutation image of j. -/
lemma mix_round_invariant_core (M : Int) (rows n : Nat) (ballots : List Int)
    (initial_sv : List (List PlaintextSVR)) (rr : RoundRand)
    (hrows : 0 < rows)
    (hisv : initial_sv.length = rows) (hisvrow : ∀ row ∈ initial_sv, row.length = n)
    (hshare : ∀ j : Nat, j < n →
      colSum (decrypt_row_values M initial_sv) j % M = ballots.getD j 0)
    (hrr : validRound rows n rr) (j : Nat) (hj : j < n) :
    svrColSum M (_mix_round M rows initial_sv rr).2 j % M =
      ballots.getD (composePerms (_mix_round M rows initial_sv rr).1 j) 0 := by
  obtain ⟨hcols, hsr, hsrl⟩ := hrr
  have hdec_len : (decrypt_row_values M initial_sv).length = rows := by
    simp [decrypt_row_values, hisv]
  have hdec_row : ∀ row ∈ decrypt_row_values M initial_sv, row.length = n := by
    intro row hrowm
    rcases List.mem_map.mp hrowm with ⟨r0, hr0, rfl⟩
    simp [hisvrow r0 hr0]
  obtain ⟨hm1, hm2, hm3⟩ := mix_round_values_spec M rows n rr.cols
    (decrypt_row_values M initial_sv) hrows hdec_len hdec_row hcols
  show svrColSum M (round_commitments M rr.svr_rands
    (mix_round_values M rows rr.cols (decrypt_row_values M initial_sv))) j % M = _
  rw [round_commitments_svrColSum M rows n rr.svr_rands _ hm1 hm2 hsr hsrl j hj, hm3 j hj]
  exact hshare _ (composePerms_lt n (rr.cols.map ColumnRand.pi)
    (fun p hp => by
      rcases List.mem_map.mp hp with ⟨q, hq, rfl⟩
      exact (hcols q hq).1) j hj)

/-- C1: for every election state produced by mix_votes with n >= 1 votes,
rows >= 1, all cast ballots in [0, M), and incoming rows that additively
share the ballots (which is what tablets produce), every round and every
vote position j satisfy: the sum over rows of
val(commitment_arrays[r][row][j].u, .v, M) is congruent mod M to the cast
ballot at position pi_0(pi_1(...pi_rows-1(j))) of the permutations
recorded for that round; and obfuscation cannot change any ballot value
because every per-column obfuscation tuple get_SV_multiple(0, rows, M)
sums to 0 mod M. -/
theorem mix_votes_ballot_invariant (M : Int) (rows n : Nat) (ballots : List Int)
    (initial_sv : List (List PlaintextSVR)) (rounds : List RoundRand)
    (hM : 1 < M) (hrows : 0 < rows) (hn : 0 < n)
    (hblen : ballots.length = n)
    (hbval : ∀ b ∈ ballots, 0 ≤ b ∧ b < M)
    (hisv : initial_sv.length = rows) (hisvrow : ∀ row ∈ initial_sv, row.length = n)
    (hshare : ∀ j : Nat, j < n →
      colSum (decrypt_row_values M initial_sv) j % M = ballots.getD j 0)
    (hrounds : ∀ rr ∈ rounds, validRound rows n rr) :
    (∀ rands : List Int, (get_SV_multiple 0 rows M rands).sum % M = 0) ∧
    (∀ pr ∈ mix_votes M rows initial_sv rounds, ∀ j : Nat, j < n →
      svrColSum M pr.2 j % M = ballots.getD (composePerms pr.1 j) 0) := by
  refine ⟨fun rands => by rw [get_SV_multiple_sum, Int.zero_emod], ?_⟩
  intro pr hpr j hj
  rcases List.mem_map.mp hpr with ⟨rr, hrrmem, rfl⟩
  exact mix_round_invariant_core M rows n ballots initial_sv rr hrows hisv hisvrow hshare
    (hrounds rr hrrmem) j hj

/-! Lemmas about _reverse_permutation and un-mixing (claim C2). -/

lemma getD_set_ne {α : Type} (l : List α) (k j : Nat) (x : α) (d : α) (h : k ≠ j) :
    (l.set k x).getD j d = l.getD j d := by
  rcases Nat.lt_or_ge j l.length with hj | hj
  · rw [List.getD_eq_getElem _ _ (by simpa using hj), List.getElem_set_ne h,
      List.getD_eq_getElem _ _ hj]
  · rw [List.getD_eq_default _ _ (by simpa using hj), List.getD_eq_default _ _ hj]

lemma foldl_set_getD_of_not_mem {α : Type} (L : List (Nat × α)) (acc : List α) (j : Nat)
    (d : α) (hj : ∀ p ∈ L, p.1 ≠ j) :
    (L.foldl (fun acc p => acc.set p.1 p.2) acc).getD j d = acc.getD j d := by
  induction L generalizing acc with
  | nil => rfl
  | cons q rest ih =>
    rw [List.foldl_cons, ih _ (fun p hp => hj p (List.mem_cons_of_mem q hp)),
      getD_set_ne _ _ _ _ _ (hj q (List.mem_cons_self q rest))]

lemma foldl_set_length {α : Type} (L : List (Nat × α)) (acc : List α) :
    (L.foldl (fun acc p => acc.set p.1 p.2) acc).length = acc.length := by
  induction L generalizing acc with
  | nil => rfl
  | cons q rest ih => rw [List.foldl_cons, ih, List.length_set]

lemma foldl_set_getD_of_mem {α : Type} (L : List (Nat × α)) (hnd : (L.map Prod.fst).Nodup)
    (acc : List α) (d : α) (p : Nat × α) (hp : p ∈ L) (hlt : p.1 < acc.length) :
    (L.foldl (fun acc q => acc.set q.1 q.2) acc).getD p.1 d = p.2 := by
  induction L generalizing acc with
  | nil => cases hp
  | cons q rest ih =>
    rw [List.map_cons, List.nodup_cons] at hnd
    rcases List.mem_cons.mp hp with rfl | hmem
    · rw [List.foldl_cons,
        foldl_set_getD_of_not_mem rest _ _ _
          (fun r hr heq => hnd.1 (by rw [← heq]; exact List.mem_map_of_mem Prod.fst hr))]
      rw [List.getD_eq_getElem _ _ (by rw [List.length_set]; omega), List.getElem_set_self]
    · rw [List.foldl_cons]
      exact ih hnd.2 _ hmem (by rw [List.length_set]; omega)

lemma map_getD_range_self {α : Type} (l : List α) (d : α) :
    (List.range l.length).map (fun i => l.getD i d) = l := by
  induction l with
  | nil => rfl
  | cons a t ih =>
    rw [List.length_cons, List.range_succ_eq_map, List.map_cons, List.map_map]
    have hcomp : ((fun i => (a :: t).getD i d) ∘ Nat.succ) = fun i => t.getD i d := by
      funext i
      rfl
    rw [List.getD_cons_zero, hcomp, ih]

lemma reverse_permutation_as_assignments {α : Type} (p : List Nat) (vals : List α)
    (d : α) :
    _reverse_permutation p vals d =
      (vals.enum.map (fun iv => (p.getD iv.1 0, iv.2))).foldl
        (fun bt pr => bt.set pr.1 pr.2) (vals.map (fun _ => d)) := by
  unfold _reverse_permutation
  rw [List.foldl_map]

lemma reverse_permutation_length {α : Type} (p : List Nat) (vals : List α) (d : α) :
    (_reverse_permutation p vals d).length = vals.length := by
  rw [reverse_permutation_as_assignments, foldl_set_length, List.length_map]

lemma reverse_permutation_getD {α : Type} (n : Nat) (p : List Nat) (vals : List α)
    (d : α) (hp : validPerm n p) (hlen : vals.length = n) (i : Nat) (hi : i < n) :
    (_reverse_permutation p vals d).getD (p.getD i 0) d = vals.getD i d := by
  obtain ⟨hpl, hpnd, hpb⟩ := hp
  rw [reverse_permutation_as_assignments]
  have hnd : ((vals.enum.map (fun iv => (p.getD iv.1 0, iv.2))).map Prod.fst).Nodup := by
    have h1 : (vals.enum.map (fun iv => (p.getD iv.1 0, iv.2))).map Prod.fst =
        (vals.enum.map Prod.fst).map (fun k => p.getD k 0) := by
      rw [List.map_map, List.map_map]
      rfl
    rw [h1, List.enum_map_fst, hlen, ← hpl, map_getD_range_self p 0]
    exact hpnd
  have hiv : (i, vals[i]) ∈ vals.enum := by
    have hb : i < vals.enum.length := by rw [List.enum_length]; omega
    have hg := List.getElem_enum vals i hb
    rw [← hg]
    exact List.getElem_mem _
  have hmem : (p.getD i 0, vals.getD i d) ∈
      vals.enum.map (fun iv => (p.getD iv.1 0, iv.2)) := by
    refine List.mem_map.mpr ⟨(i, vals[i]), hiv, ?_⟩
    rw [List.getD_eq_getElem vals d (by omega)]
  have hlt : (p.getD i 0, vals.getD i d).1 < (vals.map (fun _ => d)).length := by
    rw [List.length_map, hlen]
    show p.getD i 0 < n
    rw [List.getD_eq_getElem p 0 (by omega)]
    exact hpb _ (List.getElem_mem _)
  exact foldl_set_getD_of_mem _ hnd _ d (p.getD i 0, vals.getD i d) hmem hlt

lemma unmix_round_eq_map (perms : List (List Nat))
    (rows_svrs : List (List PlaintextSVR)) :
    unmix_round perms rows_svrs = rows_svrs.map (unmix_row perms) := by
  unfold unmix_round unmix_row
  generalize perms.reverse = ps
  induction ps generalizing rows_svrs with
  | nil => simp
  | cons p rest ih =>
    rw [List.foldl_cons, ih, List.map_map]
    rfl

lemma unmix_row_length (perms : List (List Nat)) (row : List PlaintextSVR) :
    (unmix_row perms row).length = row.length := by
  unfold unmix_row
  generalize perms.reverse = ps
  induction ps generalizing row with
  | nil => rfl
  | cons p rest ih => rw [List.foldl_cons, ih, reverse_permutation_length]

lemma unmix_row_getD (n : Nat) (perms : List (List Nat)) (row : List PlaintextSVR)
    (hps : ∀ p ∈ perms, validPerm n p) (hrow : row.length = n) (i : Nat) (hi : i < n) :
    (unmix_row perms row).getD (composePerms perms i) dfltSVR = row.getD i dfltSVR := by
  induction perms with
  | nil => rfl
  | cons p rest ih =>
    have hstep : unmix_row (p :: rest) row =
        _reverse_permutation p (unmix_row rest row) dfltSVR := by
      unfold unmix_row
      rw [List.reverse_cons, List.foldl_append, List.foldl_cons, List.foldl_nil]
    have hrest : ∀ q ∈ rest, validPerm n q := fun q hq => hps q (List.mem_cons_of_mem p hq)
    have hm : composePerms rest i < n := composePerms_lt n rest hrest i hi
    have hul : (unmix_row rest row).length = n := by rw [unmix_row_length, hrow]
    show (unmix_row (p :: rest) row).getD (p.getD (composePerms rest i) 0) dfltSVR =
      row.getD i dfltSVR
    rw [hstep, reverse_permutation_getD n p (unmix_row rest row) dfltSVR
      (hps p (List.mem_cons_self p rest)) hul _ hm]
    exact ih hrest

lemma validPerm_surj (n : Nat) (p : List Nat) (hp : validPerm n p) (j : Nat)
    (hj : j < n) : ∃ i, i < n ∧ p.getD i 0 = j := by
  obtain ⟨hpl, hpnd, hpb⟩ := hp
  have hsub : p.toFinset ⊆ Finset.range n := fun x hx =>
    Finset.mem_range.mpr (hpb x (List.mem_toFinset.mp hx))
  have hcard : (Finset.range n).card ≤ p.toFinset.card := by
    rw [Finset.card_range, List.toFinset_card_of_nodup hpnd, hpl]
  have heq : p.toFinset = Finset.range n := Finset.eq_of_subset_of_card_le hsub hcard
  have hjmem : j ∈ p := List.mem_toFinset.mp (heq ▸ Finset.mem_range.mpr hj)
  obtain ⟨i, hil, hig⟩ := List.getElem_of_mem hjmem
  exact ⟨i, by omega, by rw [List.getD_eq_getElem p 0 hil]; exact hig⟩

lemma composePerms_surj (n : Nat) (ps : List (List Nat)) :
    (∀ p ∈ ps, validPerm n p) → ∀ j, j < n → ∃ i, i < n ∧ composePerms ps i = j := by
  induction ps with
  | nil => exact fun _ j hj => ⟨j, hj, rfl⟩
  | cons p rest ih =>
    intro hps j hj
    obtain ⟨m, hm, hpm⟩ := validPerm_surj n p (hps p (List.mem_cons_self p rest)) j hj
    obtain ⟨i, hi, hci⟩ := ih (fun q hq => hps q (List.mem_cons_of_mem p hq)) m hm
    refine ⟨i, hi, ?_⟩
    show p.getD (composePerms rest i) 0 = j
    rw [hci, hpm]

lemma round_commitments_shape (M : Int) (rows n : Nat)
    (svr_rands : List (List (Int × Int × Int))) (rv : List (List Int))
    (hrv : rv.length = rows) (hrow : ∀ row ∈ rv, row.length = n)
    (hsr : svr_rands.length = rows) (hsrl : ∀ l ∈ svr_rands, l.length = n) :
    (round_commitments M svr_rands rv).length = rows ∧
    ∀ row ∈ round_commitments M svr_rands rv, row.length = n := by
  constructor
  · simp [round_commitments, List.length_zip, hrv, hsr]
  · intro row hrowm
    rcases List.mem_map.mp hrowm with ⟨p, hpmem, rfl⟩
    rw [List.length_map, List.length_zip]
    have h1 := List.of_mem_zip hpmem
    rw [hrow _ h1.1, hsrl _ h1.2]
    exact Nat.min_self n

/-- C2: un-mixing is a left inverse of mixing: for every round r and vote
position j, the unmixed commitment grid obtained by replaying the recorded
column permutations of round r in reverse via _unmix_commitments and
_reverse_permutation has row sum of val(u, v, M) at position j congruent
mod M to the j-th cast ballot in pre-mix order. -/
theorem unmix_left_inverse (M : Int) (rows n : Nat) (ballots : List Int)
    (initial_sv : List (List PlaintextSVR)) (rounds : List RoundRand)
    (hM : 1 < M) (hrows : 0 < rows) (hn : 0 < n)
    (hblen : ballots.length = n)
    (hbval : ∀ b ∈ ballots, 0 ≤ b ∧ b < M)
    (hisv : initial_sv.length = rows) (hisvrow : ∀ row ∈ initial_sv, row.length = n)
    (hshare : ∀ j : Nat, j < n →
      colSum (decrypt_row_values M initial_sv) j % M = ballots.getD j 0)
    (hrounds : ∀ rr ∈ rounds, validRound rows n rr) :
    ∀ r : Nat, r < rounds.length → ∀ j : Nat, j < n →
      svrColSum M ((_unmix_commitments rounds.length
          ((mix_votes M rows initial_sv rounds).map Prod.fst)
          ((mix_votes M rows initial_sv rounds).map Prod.snd)).getD r []) j % M =
        ballots.getD j 0 := by
  intro r hr j hj
  have hrlen : r < rounds.length := hr
  have hrr : rounds.getD r ⟨[], []⟩ ∈ rounds := by
    rw [List.getD_eq_getElem rounds _ hr]
    exact List.getElem_mem _
  have hvr := hrounds _ hrr
  have hmvlen : r < (mix_votes M rows initial_sv rounds).length := by
    rw [mix_votes, List.length_map]
    omega
  have hperms : ((mix_votes M rows initial_sv rounds).map Prod.fst).getD r [] =
      (_mix_round M rows initial_sv (rounds.getD r ⟨[], []⟩)).1 := by
    rw [getD_map_at Prod.fst _ r ([] : List (List Nat))
      (([], []) : List (List Nat) × List (List PlaintextSVR)) hmvlen]
    show ((mix_votes M rows initial_sv rounds).getD r ([], [])).1 = _
    rw [show (mix_votes M rows initial_sv rounds).getD r ([], []) =
      _mix_round M rows initial_sv (rounds.getD r ⟨[], []⟩) from
      getD_map_at (_mix_round M rows initial_sv) rounds r ([], []) ⟨[], []⟩ hrlen]
  have hcommits : ((mix_votes M rows initial_sv rounds).map Prod.snd).getD r [] =
      (_mix_round M rows initial_sv (rounds.getD r ⟨[], []⟩)).2 := by
    rw [getD_map_at Prod.snd _ r ([] : List (List PlaintextSVR))
      (([], []) : List (List Nat) × List (List PlaintextSVR)) hmvlen]
    show ((mix_votes M rows initial_sv rounds).getD r ([], [])).2 = _
    rw [show (mix_votes M rows initial_sv rounds).getD r ([], []) =
      _mix_round M rows initial_sv (rounds.getD r ⟨[], []⟩) from
      getD_map_at (_mix_round M rows initial_sv) rounds r ([], []) ⟨[], []⟩ hrlen]
  have h1 : (_unmix_commitments rounds.length
      ((mix_votes M rows initial_sv rounds).map Prod.fst)
      ((mix_votes M rows initial_sv rounds).map Prod.snd)).getD r [] =
      unmix_round (_mix_round M rows initial_sv (rounds.getD r ⟨[], []⟩)).1
        (_mix_round M rows initial_sv (rounds.getD r ⟨[], []⟩)).2 := by
    unfold _unmix_commitments
    rw [getD_map_range _ _ _ _ hr, hperms, hcommits]
  rw [h1, unmix_round_eq_map]
  simp only [_mix_round]
  obtain ⟨hcols, hsr, hsrl⟩ := hvr
  -- shapes of the committed grid
  have hdec_len : (decrypt_row_values M initial_sv).length = rows := by
    simp [decrypt_row_values, hisv]
  have hdec_row : ∀ row ∈ decrypt_row_values M initial_sv, row.length = n := by
    intro row hrowm
    rcases List.mem_map.mp hrowm with ⟨r0, hr0, rfl⟩
    simp [hisvrow r0 hr0]
  obtain ⟨hm1, hm2, _⟩ := mix_round_values_spec M rows n (rounds.getD r ⟨[], []⟩).cols
    (decrypt_row_values M initial_sv) hrows hdec_len hdec_row hcols
  obtain ⟨hClen, hCrow⟩ := round_commitments_shape M rows n (rounds.getD r ⟨[], []⟩).svr_rands
    (mix_round_values M rows (rounds.getD r ⟨[], []⟩).cols (decrypt_row_values M initial_sv))
    hm1 hm2 hsr hsrl
  have hPvalid : ∀ p ∈ ((rounds.getD r ⟨[], []⟩).cols.map ColumnRand.pi), validPerm n p := by
    intro p hp
    rcases List.mem_map.mp hp with ⟨q, hq, rfl⟩
    exact (hcols q hq).1
  obtain ⟨i, hi, hsig⟩ := composePerms_surj n
    ((rounds.getD r ⟨[], []⟩).cols.map ColumnRand.pi) hPvalid j hj
  have hsum : svrColSum M ((round_commitments M (rounds.getD r ⟨[], []⟩).svr_rands
        (mix_round_values M rows (rounds.getD r ⟨[], []⟩).cols
          (decrypt_row_values M initial_sv))).map
      (unmix_row ((rounds.getD r ⟨[], []⟩).cols.map ColumnRand.pi))) j =
      svrColSum M (round_commitments M (rounds.getD r ⟨[], []⟩).svr_rands
        (mix_round_values M rows (rounds.getD r ⟨[], []⟩).cols
          (decrypt_row_values M initial_sv))) i := by
    unfold svrColSum
    rw [List.map_map]
    refine congrArg List.sum (List.map_congr_left ?_)
    intro row hrowm
    show val ((unmix_row _ row).getD j dfltSVR).u ((unmix_row _ row).getD j dfltSVR).v M = _
    rw [← hsig, unmix_row_getD n _ row hPvalid (hCrow row hrowm) i hi]
  rw [hsum]
  have hcore := mix_round_invariant_core M rows n ballots initial_sv
    (rounds.getD r ⟨[], []⟩) hrows hisv hisvrow hshare ⟨hcols, hsr, hsrl⟩ i hi
  simp only [_mix_round] at hcore
  rw [hcore, hsig]

/-- Shared concrete mixing fixture: M = 7, rows = 2, n = 2,
ballots [2, 3]; the two rows hold SVRs whose values additively share the
ballots. -/
def sample_isv : List (List PlaintextSVR) :=
  [[⟨0, 0, 4, 4⟩, ⟨0, 0, 3, 5⟩],
   [⟨0, 0, 6, 2⟩, ⟨0, 0, 5, 4⟩]]

/-- Shared concrete round randomness for the fixture. -/
def sample_round : RoundRand :=
  { cols := [⟨[1, 0], [[3], [11]]⟩, ⟨[0, 1], [[6], [2]]⟩],
    svr_rands := [[(1, 2, 9), (3, 4, 8)], [(5, 6, 7), (7, 8, 13)]] }

/-- Witness for mix_votes_ballot_invariant on the concrete fixture. -/
theorem mix_votes_ballot_invariant_witness :
    (∀ j : Nat, j < 2 →
      colSum (decrypt_row_values 7 sample_isv) j % 7 = ([2, 3] : List Int).getD j 0) ∧
    svrColSum 7 (_mix_round 7 2 sample_isv sample_round).2 0 % 7 =
      ([2, 3] : List Int).getD
        (composePerms (_mix_round 7 2 sample_isv sample_round).1 0) 0 := by
  refine ⟨by decide, ?_⟩
  exact (mix_votes_ballot_invariant 7 2 2 [2, 3] sample_isv [sample_round]
    (by decide) (by decide) (by decide) (by decide) (by decide) (by decide) (by decide)
    (by decide) (by decide)).2 (_mix_round 7 2 sample_isv sample_round)
    (List.mem_singleton.mpr rfl) 0 (by decide)

/-- Witness for unmix_left_inverse on the concrete fixture. -/
theorem unmix_left_inverse_witness :
    ((0 : Nat) < 1 ∧ (1 : Nat) < 2) ∧
    svrColSum 7 ((_unmix_commitments 1
        ((mix_votes 7 2 sample_isv [sample_round]).map Prod.fst)
        ((mix_votes 7 2 sample_isv [sample_round]).map Prod.snd)).getD 0 []) 1 % 7 =
      ([2, 3] : List Int).getD 1 0 := by
  refine ⟨by decide, ?_⟩
  exact unmix_left_inverse 7 2 2 [2, 3] sample_isv [sample_round]
    (by decide) (by decide) (by decide) (by decide) (by decide) (by decide) (by decide)
    (by decide) (by decide) 0 (by decide) 1 (by decide)

/-! Model of the SBB transcript (claim C7). A written line is modelled by
the JSON value it carries: json.dumps followed by json.loads is the
identity on the posted payloads (lists, string-keyed dicts with the int
keys restored by int(k) in the parser, and big integers standing for byte
strings). Payload lines never collide with heading lines because every
dumped payload starts with a brace or bracket while headings are bare
lowercase words. -/

def BALLOT_RECEIPTS : String := "ballot_receipts"

def ORIGINAL_ORDER_COMMITMENTS : String := "original_order_commitments"

def MIXNET_VOTE_COMMITMENT_LIST : String := "mixnet_vote_commitment_list"

def END_SECTION : String := "end_section"

def ELECTION_OUTCOME : String := "election_outcome"

def T_VALUE_COMMITMENT_LIST : String := "tvalue_commitment_list"

def CONSISTENCY_PROOF : String := "consistency_proof"

/-- Modelled from the spec: util.ComSV is used by sbb.py but absent from
src/util.py; it is the pair of commitments with keys com_u and com_v
(spec section 4.4). -/
structure ComUV where
  com_u : Int
  com_v : Int
deriving DecidableEq

/-- One line of the sbb.txt transcript, tagged by the payload it holds. -/
inductive SBBLine where
  | headingLine (s : String)
  | receiptLine (bid : Int) (receipt : String)
  | origCommitsLine (coms : List (List ComUV))
  | mixnetLine (com_t : List (List ComUV))
  | tvaluesLine (tv : List (List (List TValue)))
  | consistencyLine (cp : List (Nat × List (List ProofEntry)))
  | outcomeLine (list_idx : Nat) (svrs : List (List PlaintextSVR))
deriving DecidableEq

/-- Model of sbb.SBBContents, with Python dicts as insertion-ordered
association lists. -/
structure SBBContents where
  ballot_receipts : List (Int × String) := []
  vote_lists : List (List (List ComUV)) := []
  election_outcomes : List (Nat × List (List PlaintextSVR)) := []
  svr_commitments : List (List ComUV) := []
  t_values : List (List (List TValue)) := []
  consistency_proof : List (Nat × List (List ProofEntry)) := []
deriving DecidableEq

/-- Python dict assignment d[k] = v on an insertion-ordered association
list: update in place if the key exists, else append. -/
def dictInsert {kt vt : Type} [DecidableEq kt] (k : kt) (v : vt) (d : List (kt × vt)) :
    List (kt × vt) :=
  if d.any (fun p => decide (p.1 = k)) then d.map (fun p => if p.1 = k then (k, v) else p)
  else d ++ [(k, v)]

/-- Python dict lookup d.get(k) on an association list. -/
def dictGet {kt vt : Type} [DecidableEq kt] (k : kt) (d : List (kt × vt)) : Option vt :=
  (d.find? (fun p => decide (p.1 = k))).map Prod.snd

/-- Lines written by SBB.post_ballots_and_commitments: the receipts
section followed by the original-order commitments section. -/
def post_ballots_and_commitments (receipts : List (Int × String))
    (svr_commitments : List (List ComUV)) : List SBBLine :=
  [SBBLine.headingLine BALLOT_RECEIPTS] ++
    receipts.map (fun p => SBBLine.receiptLine p.1 p.2) ++
    [SBBLine.headingLine END_SECTION] ++
    [SBBLine.headingLine ORIGINAL_ORDER_COMMITMENTS,
     SBBLine.origCommitsLine svr_commitments,
     SBBLine.headingLine END_SECTION]

/-- Lines written by post_start_mixnet_output_list, the 2m calls to
post_one_mixnet_output_list and the closing post_end_section. -/
def post_mixnet_section (com_ts : List (List (List ComUV))) : List SBBLine :=
  [SBBLine.headingLine MIXNET_VOTE_COMMITMENT_LIST] ++
    com_ts.map SBBLine.mixnetLine ++ [SBBLine.headingLine END_SECTION]

/-- Lines written by post_start_tvalue_commitments and
post_tvalue_commitments (one payload line, then end_section). -/
def post_tvalue_section (tvs : List (List (List TValue))) : List SBBLine :=
  [SBBLine.headingLine T_VALUE_COMMITMENT_LIST, SBBLine.tvaluesLine tvs,
   SBBLine.headingLine END_SECTION]

/-- Lines written by post_start_consistency_proof and
consistency_proof_end: the in-memory dict accumulated by the
post_consistency_proof calls is dumped as one line. -/
def post_consistency_section (cp : List (Nat × List (List ProofEntry))) : List SBBLine :=
  [SBBLine.headingLine CONSISTENCY_PROOF, SBBLine.consistencyLine cp,
   SBBLine.headingLine END_SECTION]

/-- Lines written by post_start_election_outcome_proof, the m calls to
post_one_election_outcome_proof and the closing post_end_section. -/
def post_outcome_section (outs : List (Nat × List (List PlaintextSVR))) : List SBBLine :=
  [SBBLine.headingLine ELECTION_OUTCOME] ++
    outs.map (fun p => SBBLine.outcomeLine p.1 p.2) ++ [SBBLine.headingLine END_SECTION]

/-- The full transcript of a completed election in posting order. -/
def election_transcript (receipts : List (Int × String)) (svr_coms : List (List ComUV))
    (mix_lists : List (List (List ComUV))) (tvs : List (List (List TValue)))
    (cp : List (Nat × List (List ProofEntry)))
    (outs : List (Nat × List (List PlaintextSVR))) : List SBBLine :=
  post_ballots_and_commitments receipts svr_coms ++ post_mixnet_section mix_lists ++
    post_tvalue_section tvs ++ post_consistency_section cp ++ post_outcome_section outs

/-- Ballot receipts section loop of get_sbb_contents: consume lines until
end_section (inclusive; the Python outer loop re-reads the terminator as a
heading and falls into the no-op else branch, which is observationally the
same), adding bid to receipt into the dict. A malformed line inside the
section would make json.loads raise in Python and cannot occur in
transcripts produced by the writers; it is skipped here. -/
def parse_receipts_section : List SBBLine → SBBContents → SBBContents × List SBBLine
  | [], acc => (acc, [])
  | SBBLine.headingLine s :: rest, acc =>
    if s = END_SECTION then (acc, rest) else parse_receipts_section rest acc
  | SBBLine.receiptLine bid receipt :: rest, acc =>
    parse_receipts_section rest
      { acc with ballot_receipts := dictInsert bid receipt acc.ballot_receipts }
  | _ :: rest, acc => parse_receipts_section rest acc

/-- Original-order commitments section loop of get_sbb_contents. -/
def parse_orig_section : List SBBLine → SBBContents → SBBContents × List SBBLine
  | [], acc => (acc, [])
  | SBBLine.headingLine s :: rest, acc =>
    if s = END_SECTION then (acc, rest) else parse_orig_section rest acc
  | SBBLine.origCommitsLine coms :: rest, acc =>
    parse_orig_section rest { acc with svr_commitments := coms }
  | _ :: rest, acc => parse_orig_section rest acc

/-- Mixnet vote commitment list section loop of get_sbb_contents. -/
def parse_mixnet_section : List SBBLine → SBBContents → SBBContents × List SBBLine
  | [], acc => (acc, [])
  | SBBLine.headingLine s :: rest, acc =>
    if s = END_SECTION then (acc, rest) else parse_mixnet_section rest acc
  | SBBLine.mixnetLine com_t :: rest, acc =>
    parse_mixnet_section rest { acc with vote_lists := acc.vote_lists ++ [com_t] }
  | _ :: rest, acc => parse_mixnet_section rest acc

/-- T-value commitment list section loop of get_sbb_contents. -/
def parse_tvalues_section : List SBBLine → SBBContents → SBBContents × List SBBLine
  | [], acc => (acc, [])
  | SBBLine.headingLine s :: rest, acc =>
    if s = END_SECTION then (acc, rest) else parse_tvalues_section rest acc
  | SBBLine.tvaluesLine tv :: rest, acc =>
    parse_tvalues_section rest { acc with t_values := tv }
  | _ :: rest, acc => parse_tvalues_section rest acc

/-- Consistency proof section loop of get_sbb_contents: each dumped dict
is merged entry by entry with the int keys restored. -/
def parse_consistency_section : List SBBLine → SBBContents → SBBContents × List SBBLine
  | [], acc => (acc, [])
  | SBBLine.headingLine s :: rest, acc =>
    if s = END_SECTION then (acc, rest) else parse_consistency_section rest acc
  | SBBLine.consistencyLine cp :: rest, acc =>
    parse_consistency_section rest
      { acc with consistency_proof :=
          cp.foldl (fun d p => dictInsert p.1 p.2 d) acc.consistency_proof }
  | _ :: rest, acc => parse_consistency_section rest acc

/-- Election outcome section loop of get_sbb_contents. -/
def parse_outcome_section : List SBBLine → SBBContents → SBBContents × List SBBLine
  | [], acc => (acc, [])
  | SBBLine.headingLine s :: rest, acc =>
    if s = END_SECTION then (acc, rest) else parse_outcome_section rest acc
  | SBBLine.outcomeLine list_idx svrs :: rest, acc =>
    parse_outcome_section rest
      { acc with election_outcomes := dictInsert list_idx svrs acc.election_outcomes }
  | _ :: rest, acc => parse_outcome_section rest acc

/-- Outer while loop of get_sbb_contents: while at least two lines remain
(i < len(lines) - 1), read a heading, dispatch to the section parser, and
continue on the remainder; unrecognized headings fall to the no-op else
branch. The fuel argument, initialized to the line count, bounds the
iteration count (every iteration consumes at least one line). -/
def get_sbb_contents_loop : Nat → List SBBLine → SBBContents → SBBContents
  | 0, _, acc => acc
  | _ + 1, [], acc => acc
  | _ + 1, [_], acc => acc
  | fuel + 1, l1 :: l2 :: rest, acc =>
    match l1 with
    | SBBLine.headingLine s =>
      if s = BALLOT_RECEIPTS then
        let pr := parse_receipts_section (l2 :: rest) acc
        get_sbb_contents_loop fuel pr.2 pr.1
      else if s = ORIGINAL_ORDER_COMMITMENTS then
        let pr := parse_orig_section (l2 :: rest) acc
        get_sbb_contents_loop fuel pr.2 pr.1
      else if s = MIXNET_VOTE_COMMITMENT_LIST then
        let pr := parse_mixnet_section (l2 :: rest) acc
        get_sbb_contents_loop fuel pr.2 pr.1
      else if s = CONSISTENCY_PROOF then
        let pr := parse_consistency_section (l2 :: rest) acc
        get_sbb_contents_loop fuel pr.2 pr.1
      else if s = T_VALUE_COMMITMENT_LIST then
        let pr := parse_tvalues_section (l2 :: rest) acc
        get_sbb_contents_loop fuel pr.2 pr.1
      else if s = ELECTION_OUTCOME then
        let pr := parse_outcome_section (l2 :: rest) acc
        get_sbb_contents_loop fuel pr.2 pr.1
      else get_sbb_contents_loop fuel (l2 :: rest) acc
    | _ => get_sbb_contents_loop fuel (l2 :: rest) acc

/-- Model of SBB.get_sbb_contents on the transcript lines. -/
def get_sbb_contents (lines : List SBBLine) : SBBContents :=
  get_sbb_contents_loop lines.length lines {}

lemma dictInsert_fresh {kt vt : Type} [DecidableEq kt] (k : kt) (v : vt)
    (d : List (kt × vt)) (h : ∀ p ∈ d, p.1 ≠ k) : dictInsert k v d = d ++ [(k, v)] := by
  unfold dictInsert
  rw [if_neg]
  simp only [List.any_eq_true, decide_eq_true_eq, not_exists]
  intro p
  rw [not_and]
  exact h p

lemma foldl_dictInsert_fresh {kt vt : Type} [DecidableEq kt] (l : List (kt × vt)) :
    ∀ acc : List (kt × vt), (l.map Prod.fst).Nodup →
      (∀ p ∈ l, ∀ q ∈ acc, q.1 ≠ p.1) →
      l.foldl (fun d p => dictInsert p.1 p.2 d) acc = acc ++ l := by
  induction l with
  | nil => simp
  | cons p ps ih =>
    intro acc hnd hdisj
    rw [List.map_cons, List.nodup_cons] at hnd
    rw [List.foldl_cons,
      dictInsert_fresh p.1 p.2 acc (fun q hq => hdisj p (List.mem_cons_self p ps) q hq)]
    rw [ih (acc ++ [p]) hnd.2 ?_, List.append_assoc, List.singleton_append]
    intro r hr q hq heq
    rcases List.mem_append.mp hq with hq1 | hq1
    · exact hdisj r (List.mem_cons_of_mem p hr) q hq1 heq
    · rcases List.mem_singleton.mp hq1 with rfl
      exact hnd.1 (heq ▸ List.mem_map_of_mem Prod.fst hr)

lemma dictGet_of_nodup {kt vt : Type} [DecidableEq kt] (l : List (kt × vt))
    (hnd : (l.map Prod.fst).Nodup) (p : kt × vt) (hp : p ∈ l) :
    dictGet p.1 l = some p.2 := by
  induction l with
  | nil => cases hp
  | cons q qs ih =>
    rw [List.map_cons, List.nodup_cons] at hnd
    rcases List.mem_cons.mp hp with rfl | hmem
    · unfold dictGet
      rw [List.find?_cons_of_pos _ (by simp)]
      rfl
    · unfold dictGet
      rw [List.find?_cons_of_neg _ (by
        simp only [decide_eq_true_eq]
        exact fun heq => hnd.1 (heq ▸ List.mem_map_of_mem Prod.fst hmem))]
      exact ih hnd.2 hmem

lemma parse_receipts_section_spec (rs : List (Int × String)) (rest : List SBBLine)
    (acc : SBBContents) :
    parse_receipts_section
      (rs.map (fun p => SBBLine.receiptLine p.1 p.2) ++
        SBBLine.headingLine END_SECTION :: rest) acc =
      ({ acc with ballot_receipts :=
          rs.foldl (fun d p => dictInsert p.1 p.2 d) acc.ballot_receipts }, rest) := by
  induction rs generalizing acc with
  | nil => simp [parse_receipts_section]
  | cons p ps ih =>
    rw [List.map_cons, List.cons_append, parse_receipts_section, List.foldl_cons]
    exact ih _

lemma parse_orig_section_spec (coms : List (List ComUV)) (rest : List SBBLine)
    (acc : SBBContents) :
    parse_orig_section
      (SBBLine.origCommitsLine coms :: SBBLine.headingLine END_SECTION :: rest) acc =
      ({ acc with svr_commitments := coms }, rest) := by
  rw [parse_orig_section]
  simp [parse_orig_section]

lemma parse_mixnet_section_spec (ls : List (List (List ComUV))) (rest : List SBBLine)
    (acc : SBBContents) :
    parse_mixnet_section
      (ls.map SBBLine.mixnetLine ++ SBBLine.headingLine END_SECTION :: rest) acc =
      ({ acc with vote_lists := acc.vote_lists ++ ls }, rest) := by
  induction ls generalizing acc with
  | nil => simp [parse_mixnet_section]
  | cons l ls2 ih =>
    rw [List.map_cons, List.cons_append, parse_mixnet_section, ih]
    simp

lemma parse_tvalues_section_spec (tv : List (List (List TValue))) (rest : List SBBLine)
    (acc : SBBContents) :
    parse_tvalues_section
      (SBBLine.tvaluesLine tv :: SBBLine.headingLine END_SECTION :: rest) acc =
      ({ acc with t_values := tv }, rest) := by
  rw [parse_tvalues_section]
  simp [parse_tvalues_section]

lemma parse_consistency_section_spec (cp : List (Nat × List (List ProofEntry)))
    (rest : List SBBLine) (acc : SBBContents) :
    parse_consistency_section
      (SBBLine.consistencyLine cp :: SBBLine.headingLine END_SECTION :: rest) acc =
      ({ acc with consistency_proof :=
          cp.foldl (fun d p => dictInsert p.1 p.2 d) acc.consistency_proof }, rest) := by
  rw [parse_consistency_section]
  simp [parse_consistency_section]

lemma parse_outcome_section_spec (outs : List (Nat × List (List PlaintextSVR)))
    (rest : List SBBLine) (acc : SBBContents) :
    parse_outcome_section
      (outs.map (fun p => SBBLine.outcomeLine p.1 p.2) ++
        SBBLine.headingLine END_SECTION :: rest) acc =
      ({ acc with election_outcomes :=
          outs.foldl (fun d p => dictInsert p.1 p.2 d) acc.election_outcomes }, rest) := by
  induction outs generalizing acc with
  | nil => simp [parse_outcome_section]
  | cons p ps ih =>
    rw [List.map_cons, List.cons_append, parse_outcome_section, List.foldl_cons]
    exact ih _

lemma loop_nil (fuel : Nat) (acc : SBBContents) :
    get_sbb_contents_loop fuel [] acc = acc := by
  cases fuel <;> rfl

lemma loop_dispatch (fuel : Nat) (s : String) (l2 : SBBLine) (rest : List SBBLine)
    (acc : SBBContents) :
    get_sbb_contents_loop (fuel + 1) (SBBLine.headingLine s :: l2 :: rest) acc =
      (if s = BALLOT_RECEIPTS then
        get_sbb_contents_loop fuel (parse_receipts_section (l2 :: rest) acc).2
          (parse_receipts_section (l2 :: rest) acc).1
      else if s = ORIGINAL_ORDER_COMMITMENTS then
        get_sbb_contents_loop fuel (parse_orig_section (l2 :: rest) acc).2
          (parse_orig_section (l2 :: rest) acc).1
      else if s = MIXNET_VOTE_COMMITMENT_LIST then
        get_sbb_contents_loop fuel (parse_mixnet_section (l2 :: rest) acc).2
          (parse_mixnet_section (l2 :: rest) acc).1
      else if s = CONSISTENCY_PROOF then
        get_sbb_contents_loop fuel (parse_consistency_section (l2 :: rest) acc).2
          (parse_consistency_section (l2 :: rest) acc).1
      else if s = T_VALUE_COMMITMENT_LIST then
        get_sbb_contents_loop fuel (parse_tvalues_section (l2 :: rest) acc).2
          (parse_tvalues_section (l2 :: rest) acc).1
      else if s = ELECTION_OUTCOME then
        get_sbb_contents_loop fuel (parse_outcome_section (l2 :: rest) acc).2
          (parse_outcome_section (l2 :: rest) acc).1
      else get_sbb_contents_loop fuel (l2 :: rest) acc) := rfl

lemma loop_step_receipts (fuel : Nat) (rs : List (Int × String)) (rest : List SBBLine)
    (acc : SBBContents) :
    get_sbb_contents_loop (fuel + 1)
      (SBBLine.headingLine BALLOT_RECEIPTS ::
        (rs.map (fun p => SBBLine.receiptLine p.1 p.2) ++
          SBBLine.headingLine END_SECTION :: rest)) acc =
    get_sbb_contents_loop fuel rest
      { acc with ballot_receipts :=
          rs.foldl (fun d p => dictInsert p.1 p.2 d) acc.ballot_receipts } := by
  cases rs with
  | nil =>
    rw [List.map_nil, List.nil_append, loop_dispatch, if_pos rfl,
      show parse_receipts_section (SBBLine.headingLine END_SECTION :: rest) acc =
        ({ acc with ballot_receipts := acc.ballot_receipts }, rest) by
          simpa using parse_receipts_section_spec [] rest acc]
    rfl
  | cons p ps =>
    rw [List.map_cons, List.cons_append, loop_dispatch, if_pos rfl,
      show parse_receipts_section (SBBLine.receiptLine p.1 p.2 ::
          (ps.map (fun q => SBBLine.receiptLine q.1 q.2) ++
            SBBLine.headingLine END_SECTION :: rest)) acc =
        ({ acc with ballot_receipts :=
            (p :: ps).foldl (fun d q => dictInsert q.1 q.2 d) acc.ballot_receipts }, rest) by
          simpa using parse_receipts_section_spec (p :: ps) rest acc]

lemma loop_step_orig (fuel : Nat) (coms : List (List ComUV)) (rest : List SBBLine)
    (acc : SBBContents) :
    get_sbb_contents_loop (fuel + 1)
      (SBBLine.headingLine ORIGINAL_ORDER_COMMITMENTS ::
        SBBLine.origCommitsLine coms :: SBBLine.headingLine END_SECTION :: rest) acc =
    get_sbb_contents_loop fuel rest { acc with svr_commitments := coms } := by
  rw [loop_dispatch, if_neg (by decide), if_pos rfl, parse_orig_section_spec]

lemma loop_step_mixnet (fuel : Nat) (ls : List (List (List ComUV))) (rest : List SBBLine)
    (acc : SBBContents) :
    get_sbb_contents_loop (fuel + 1)
      (SBBLine.headingLine MIXNET_VOTE_COMMITMENT_LIST ::
        (ls.map SBBLine.mixnetLine ++ SBBLine.headingLine END_SECTION :: rest)) acc =
    get_sbb_contents_loop fuel rest { acc with vote_lists := acc.vote_lists ++ ls } := by
  cases ls with
  | nil =>
    rw [List.map_nil, List.nil_append, loop_dispatch, if_neg (by decide),
      if_neg (by decide), if_pos rfl,
      show parse_mixnet_section (SBBLine.headingLine END_SECTION :: rest) acc =
        ({ acc with vote_lists := acc.vote_lists ++ [] }, rest) by
          simpa using parse_mixnet_section_spec [] rest acc]
  | cons l ls2 =>
    rw [List.map_cons, List.cons_append, loop_dispatch, if_neg (by decide),
      if_neg (by decide), if_pos rfl,
      show parse_mixnet_section (SBBLine.mixnetLine l ::
          (ls2.map SBBLine.mixnetLine ++ SBBLine.headingLine END_SECTION :: rest)) acc =
        ({ acc with vote_lists := acc.vote_lists ++ (l :: ls2) }, rest) by
          simpa using parse_mixnet_section_spec (l :: ls2) rest acc]

lemma loop_step_tvalues (fuel : Nat) (tv : List (List (List TValue))) (rest : List SBBLine)
    (acc : SBBContents) :
    get_sbb_contents_loop (fuel + 1)
      (SBBLine.headingLine T_VALUE_COMMITMENT_LIST ::
        SBBLine.tvaluesLine tv :: SBBLine.headingLine END_SECTION :: rest) acc =
    get_sbb_contents_loop fuel rest { acc with t_values := tv } := by
  rw [loop_dispatch, if_neg (by decide), if_neg (by decide), if_neg (by decide),
    if_neg (by decide), if_pos rfl, parse_tvalues_section_spec]

lemma loop_step_consistency (fuel : Nat) (cp : List (Nat × List (List ProofEntry)))
    (rest : List SBBLine) (acc : SBBContents) :
    get_sbb_contents_loop (fuel + 1)
      (SBBLine.headingLine CONSISTENCY_PROOF ::
        SBBLine.consistencyLine cp :: SBBLine.headingLine END_SECTION :: rest) acc =
    get_sbb_contents_loop fuel rest
      { acc with consistency_proof :=
          cp.foldl (fun d p => dictInsert p.1 p.2 d) acc.consistency_proof } := by
  rw [loop_dispatch, if_neg (by decide), if_neg (by decide), if_neg (by decide),
    if_pos rfl, parse_consistency_section_spec]

lemma loop_step_outcome (fuel : Nat) (outs : List (Nat × List (List PlaintextSVR)))
    (rest : List SBBLine) (acc : SBBContents) :
    get_sbb_contents_loop (fuel + 1)
      (SBBLine.headingLine ELECTION_OUTCOME ::
        (outs.map (fun p => SBBLine.outcomeLine p.1 p.2) ++
          SBBLine.headingLine END_SECTION :: rest)) acc =
    get_sbb_contents_loop fuel rest
      { acc with election_outcomes :=
          outs.foldl (fun d p => dictInsert p.1 p.2 d) acc.election_outcomes } := by
  cases outs with
  | nil =>
    rw [List.map_nil, List.nil_append, loop_dispatch, if_neg (by decide),
      if_neg (by decide), if_neg (by decide), if_neg (by decide), if_neg (by decide),
      if_pos rfl,
      show parse_outcome_section (SBBLine.headingLine END_SECTION :: rest) acc =
        ({ acc with election_outcomes := acc.election_outcomes }, rest) by
          simpa using parse_outcome_section_spec [] rest acc]
    rfl
  | cons p ps =>
    rw [List.map_cons, List.cons_append, loop_dispatch, if_neg (by decide),
      if_neg (by decide), if_neg (by decide), if_neg (by decide), if_neg (by decide),
      if_pos rfl,
      show parse_outcome_section (SBBLine.outcomeLine p.1 p.2 ::
          (ps.map (fun q => SBBLine.outcomeLine q.1 q.2) ++
            SBBLine.headingLine END_SECTION :: rest)) acc =
        ({ acc with election_outcomes :=
            (p :: ps).foldl (fun d q => dictInsert q.1 q.2 d) acc.election_outcomes },
          rest) by
          simpa using parse_outcome_section_spec (p :: ps) rest acc]

/-- C7: reading back a completed election transcript reproduces the
in-memory producer state: ballot_receipts maps each posted bid to its
receipt hash, svr_commitments equals the posted original-order
commitments, vote_lists equals the 2m posted commitment grids, t_values
equals the posted t-value array, consistency_proof equals the posted
proof entries and election_outcomes equals the m posted opened SVR grids
(bids and posted round indices are distinct, as produced by the
election). -/
theorem sbb_roundtrip (receipts : List (Int × String)) (svr_coms : List (List ComUV))
    (mix_lists : List (List (List ComUV))) (tvs : List (List (List TValue)))
    (cp : List (Nat × List (List ProofEntry)))
    (outs : List (Nat × List (List PlaintextSVR)))
    (hbids : (receipts.map Prod.fst).Nodup)
    (hcp : (cp.map Prod.fst).Nodup)
    (houts : (outs.map Prod.fst).Nodup) :
    (∀ p ∈ receipts, dictGet p.1
      (get_sbb_contents
        (election_transcript receipts svr_coms mix_lists tvs cp outs)).ballot_receipts =
        some p.2) ∧
    (get_sbb_contents
      (election_transcript receipts svr_coms mix_lists tvs cp outs)).svr_commitments =
      svr_coms ∧
    (get_sbb_contents
      (election_transcript receipts svr_coms mix_lists tvs cp outs)).vote_lists =
      mix_lists ∧
    (get_sbb_contents
      (election_transcript receipts svr_coms mix_lists tvs cp outs)).t_values = tvs ∧
    (get_sbb_contents
      (election_transcript receipts svr_coms mix_lists tvs cp outs)).consistency_proof =
      cp ∧
    (get_sbb_contents
      (election_transcript receipts svr_coms mix_lists tvs cp outs)).election_outcomes =
      outs := by
  have hfresh : ∀ {kt vt : Type} [DecidableEq kt] (l : List (kt × vt)),
      (l.map Prod.fst).Nodup → l.foldl (fun d p => dictInsert p.1 p.2 d) [] = l := by
    intro kt vt _ l hnd
    have h := foldl_dictInsert_fresh l [] hnd (fun p _ q hq => absurd hq (List.not_mem_nil q))
    rwa [List.nil_append] at h
  have hc : get_sbb_contents (election_transcript receipts svr_coms mix_lists tvs cp outs) =
      { ballot_receipts := receipts, vote_lists := mix_lists, election_outcomes := outs,
        svr_commitments := svr_coms, t_values := tvs, consistency_proof := cp } := by
    unfold get_sbb_contents
    have hlen : (election_transcript receipts svr_coms mix_lists tvs cp outs).length =
        receipts.length + mix_lists.length + outs.length + 15 := by
      simp [election_transcript, post_ballots_and_commitments, post_mixnet_section,
        post_tvalue_section, post_consistency_section, post_outcome_section]
      omega
    have htr : election_transcript receipts svr_coms mix_lists tvs cp outs =
        SBBLine.headingLine BALLOT_RECEIPTS ::
          (receipts.map (fun p => SBBLine.receiptLine p.1 p.2) ++
            SBBLine.headingLine END_SECTION ::
            SBBLine.headingLine ORIGINAL_ORDER_COMMITMENTS ::
            SBBLine.origCommitsLine svr_coms ::
            SBBLine.headingLine END_SECTION ::
            SBBLine.headingLine MIXNET_VOTE_COMMITMENT_LIST ::
            (mix_lists.map SBBLine.mixnetLine ++
              SBBLine.headingLine END_SECTION ::
              SBBLine.headingLine T_VALUE_COMMITMENT_LIST ::
              SBBLine.tvaluesLine tvs ::
              SBBLine.headingLine END_SECTION ::
              SBBLine.headingLine CONSISTENCY_PROOF ::
              SBBLine.consistencyLine cp ::
              SBBLine.headingLine END_SECTION ::
              SBBLine.headingLine ELECTION_OUTCOME ::
              (outs.map (fun p => SBBLine.outcomeLine p.1 p.2) ++
                [SBBLine.headingLine END_SECTION]))) := by
      simp [election_transcript, post_ballots_and_commitments, post_mixnet_section,
        post_tvalue_section, post_consistency_section, post_outcome_section]
    rw [hlen, htr]
    rw [show receipts.length + mix_lists.length + outs.length + 15 =
      (receipts.length + mix_lists.length + outs.length + 14) + 1 by omega]
    rw [loop_step_receipts]
    rw [show receipts.length + mix_lists.length + outs.length + 14 =
      (receipts.length + mix_lists.length + outs.length + 13) + 1 by omega]
    rw [loop_step_orig]
    rw [show receipts.length + mix_lists.length + outs.length + 13 =
      (receipts.length + mix_lists.length + outs.length + 12) + 1 by omega]
    rw [loop_step_mixnet]
    rw [show receipts.length + mix_lists.length + outs.length + 12 =
      (receipts.length + mix_lists.length + outs.length + 11) + 1 by omega]
    rw [loop_step_tvalues]
    rw [show receipts.length + mix_lists.length + outs.length + 11 =
      (receipts.length + mix_lists.length + outs.length + 10) + 1 by omega]
    rw [loop_step_consistency]
    rw [show receipts.length + mix_lists.length + outs.length + 10 =
      (receipts.length + mix_lists.length + outs.length + 9) + 1 by omega]
    rw [loop_step_outcome]
    rw [loop_nil]
    simp only [hfresh receipts hbids, hfresh cp hcp, hfresh outs houts, List.nil_append]
  rw [hc]
  exact ⟨fun p hp => dictGet_of_nodup receipts hbids p hp, rfl, rfl, rfl, rfl, rfl⟩

/-- Witness for sbb_roundtrip on a one-voter, one-round transcript. -/
theorem sbb_roundtrip_witness :
    (([(5, "r5")].map (Prod.fst (α := Int) (β := String))).Nodup ∧
      ([((0 : Nat), [[ProofEntry.uSide 1 2 3 4 5 6]])].map Prod.fst).Nodup ∧
      ([((1 : Nat), [[(⟨1, 2, 3, 4⟩ : PlaintextSVR)]])].map Prod.fst).Nodup) ∧
    (∀ p ∈ [((5 : Int), "r5")], dictGet p.1
      (get_sbb_contents (election_transcript [(5, "r5")] [[⟨1, 2⟩]] [[[⟨3, 4⟩]]]
        [[[⟨0, 1⟩]]] [(0, [[ProofEntry.uSide 1 2 3 4 5 6]])]
        [(1, [[⟨1, 2, 3, 4⟩]])])).ballot_receipts = some p.2) ∧
    (get_sbb_contents (election_transcript [(5, "r5")] [[⟨1, 2⟩]] [[[⟨3, 4⟩]]]
      [[[⟨0, 1⟩]]] [(0, [[ProofEntry.uSide 1 2 3 4 5 6]])]
      [(1, [[⟨1, 2, 3, 4⟩]])])).svr_commitments = [[⟨1, 2⟩]] := by
  refine ⟨⟨by decide, by decide, by decide⟩, ?_⟩
  have h := sbb_roundtrip [(5, "r5")] [[⟨1, 2⟩]] [[[⟨3, 4⟩]]] [[[⟨0, 1⟩]]]
    [(0, [[ProofEntry.uSide 1 2 3 4 5 6]])] [(1, [[⟨1, 2, 3, 4⟩]])]
    (by decide) (by decide) (by decide)
  exact ⟨h.1, h.2.1⟩

end EVoting
